import Mathlib

/-!
Verification development for a reachability-query engine over labeled
directed multigraphs (RPQ and CFPQ solvers backed by sparse boolean
adjacency matrices).

The definitions below are a shallow embedding of the engine:

* `SpMat` embeds a scipy sparse square matrix (`dok_matrix`/`csr_matrix`)
  as a dimension together with a total entry function into `Nat`.  The
  source's matrices hold numeric values (`dtype` is `bool` or `float64`;
  all arithmetic there is on small non-negative integers, which `float64`
  represents exactly), so entries are natural numbers and the boolean
  content of a matrix is its pattern of nonzero entries.
* `BooleanMatrix` embeds the `BooleanMatrix` bundle class from
  `boolean_matrix.py`: a state-to-index dictionary (association list in
  insertion order), start/final state sets (as lists, membership is what
  matters), and a dictionary from edge labels to matrices.
* `ENfa` embeds a `pyformlang` `EpsilonNFA` together with the iteration
  order of its state and symbol sets (Python sets iterate in an
  unspecified but fixed order; the embedding carries that order
  explicitly).
* Python dictionaries are embedded as association lists; a dictionary
  lookup that would raise `KeyError`, and other raising operations, are
  embedded as `Option`-valued functions returning `none`.
* `while` loops that run until a nonzero count stabilises are embedded as
  fuel-based recursion, with enough fuel that the fuel can never run out
  (every non-final iteration strictly increases a nonzero count that is
  bounded by the matrix size).
-/

namespace S2P

/-- Lookup in an association list embedding a Python `dict`: the value at
the first matching key. -/
def afind {α β : Type} [DecidableEq α] (l : List (α × β)) (a : α) : Option β :=
  (l.find? fun p => decide (p.1 = a)).map Prod.snd

/-- Keys of an association list. -/
def akeys {α β : Type} (l : List (α × β)) : List α :=
  l.map Prod.fst

/-- A scipy sparse square matrix: its dimension and its (total) entry
function.  Entries outside `[0,dim) × [0,dim)` are irrelevant; all
pattern/count notions below are restricted to that square. -/
structure SpMat where
  dim : Nat
  entry : Nat → Nat → Nat

/-- The all-zero matrix `dok_matrix((d, d))`. -/
def SpMat.zero (d : Nat) : SpMat :=
  ⟨d, fun _ _ => 0⟩

/-- Elementwise addition (`+` / `+=` on scipy sparse matrices). -/
def SpMat.add (A B : SpMat) : SpMat :=
  ⟨A.dim, fun i j => A.entry i j + B.entry i j⟩

/-- Matrix multiplication (`@` on scipy sparse matrices); the inner
dimension is the (square) dimension of the left operand. -/
def SpMat.mul (A B : SpMat) : SpMat :=
  ⟨A.dim, fun i j => ∑ k ∈ Finset.range A.dim, A.entry i k * B.entry k j⟩

/-- Kronecker product (`scipy.sparse.kron`):
`(A ⊗ B)[i·n_B + i', j·n_B + j'] = A[i,j] · B[i',j']`. -/
def SpMat.kron (A B : SpMat) : SpMat :=
  ⟨A.dim * B.dim, fun i j =>
    A.entry (i / B.dim) (j / B.dim) * B.entry (i % B.dim) (j % B.dim)⟩

/-- The set of coordinates of nonzero entries of a matrix (its boolean
pattern). -/
def SpMat.patt (A : SpMat) : Finset (Nat × Nat) :=
  (Finset.range A.dim ×ˢ Finset.range A.dim).filter fun p => A.entry p.1 p.2 ≠ 0

/-- `nnz`: the number of stored nonzero entries. -/
def SpMat.nnz (A : SpMat) : Nat :=
  A.patt.card

/-- The automaton-as-matrices bundle (`BooleanMatrix` in
`boolean_matrix.py`): a state-to-index dictionary, start and final state
sets, and a dictionary from labels to boolean adjacency matrices. -/
structure BooleanMatrix (σ L : Type) where
  stateToIndex : List (σ × Nat)
  startStates : List σ
  finalStates : List σ
  boolMatrices : List (L × SpMat)

/-- One iteration step of `get_transitive_closure`:
`transitive_closure += transitive_closure @ transitive_closure`, repeated
until `nnz` stabilises.  The loop runs at least once and returns the
matrix of the first iteration whose `nnz` equals the previous one.  Fuel
never runs out when it is at least `dim² + 1`, because `nnz` strictly
increases on every non-final iteration and is at most `dim²`. -/
def tcLoop : Nat → SpMat → SpMat
  | 0, m => m
  | fuel + 1, m =>
    let m' := m.add (m.mul m)
    if m'.nnz = m.nnz then m' else tcLoop fuel m'

/-- `sum(self.bool_matrices.values(), start=dok_matrix((n, n)))` where
`n = len(self.state_to_index)`. -/
def gtcSum {σ L : Type} (b : BooleanMatrix σ L) : SpMat :=
  (b.boolMatrices.map Prod.snd).foldl SpMat.add (SpMat.zero b.stateToIndex.length)

/-- `BooleanMatrix.get_transitive_closure`: sum all per-label matrices,
return the zero sum unchanged if it has no nonzero entry, and otherwise
iterate `M += M @ M` until `nnz` stabilises. -/
def getTransitiveClosure {σ L : Type} (b : BooleanMatrix σ L) : SpMat :=
  let s := gtcSum b
  if s.nnz = 0 then s else tcLoop (s.dim * s.dim + 1) s

/-- Repackaging a matrix returned by the closure as the single matrix of
a bundle over the same states (same `state_to_index`, start and final
sets; the matrix dictionary holds just this matrix). -/
def repack {σ L : Type} (b : BooleanMatrix σ L) (l : L) (m : SpMat) :
    BooleanMatrix σ L :=
  { b with boolMatrices := [(l, m)] }

/-- A `pyformlang` `EpsilonNFA`.  `states` and `symbols` list the state
and (non-epsilon) symbol sets in their Python iteration order; a
transition label of `none` is an epsilon transition. -/
structure ENfa (σ L : Type) where
  states : List σ
  symbols : List L
  transitions : List (σ × Option L × σ)
  starts : List σ
  finals : List σ
  deriving DecidableEq

/-- `{state: index for index, state in enumerate(nfa.states)}`. -/
def stateIndexOf {σ L : Type} (n : ENfa σ L) : List (σ × Nat) :=
  n.states.enum.map fun p => (p.2, p.1)

/-- The boolean adjacency matrix of one symbol
(`BooleanMatrix._create_boolean_matrix_from_nfa`): cell `(i, j)` is set
exactly when some transition labeled with that symbol goes from the
state at index `i` to the state at index `j`.  Epsilon transitions are
never stored (only labels in `nfa.symbols` get a matrix). -/
def fromNfaMat {σ L : Type} [DecidableEq σ] [DecidableEq L]
    (n : ENfa σ L) (l : L) : SpMat :=
  ⟨n.states.length, fun i j =>
    if n.transitions.any fun t =>
        decide (t.2.1 = some l) &&
        decide (afind (stateIndexOf n) t.1 = some i) &&
        decide (afind (stateIndexOf n) t.2.2 = some j)
    then 1 else 0⟩

/-- `BooleanMatrix.from_nfa`: dense indices in state-iteration order,
start/final sets copied, one matrix per symbol. -/
def fromNfa {σ L : Type} [DecidableEq σ] [DecidableEq L]
    (n : ENfa σ L) : BooleanMatrix σ L :=
  { stateToIndex := stateIndexOf n
    startStates := n.starts
    finalStates := n.finals
    boolMatrices := n.symbols.map fun l => (l, fromNfaMat n l) }

/-- `BooleanMatrix.to_nfa`.  The source evaluates
`dok_matrix.toarray()` — calling `toarray` on the `dok_matrix` class
instead of on the loop variable `matrix` — in the body of the loop over
`self.bool_matrices`, which raises `TypeError` as soon as the dictionary
of matrices is nonempty.  A raising call is embedded as `none`; with no
matrices the loop body never runs and an NFA with no transitions and the
copied start/final sets is returned. -/
def toNfa {σ L : Type} [DecidableEq σ] (b : BooleanMatrix σ L) :
    Option (ENfa σ L) :=
  match b.boolMatrices with
  | [] =>
    some { states := (b.startStates ++ b.finalStates).dedup
           symbols := []
           transitions := []
           starts := b.startStates
           finals := b.finalStates }
  | _ :: _ => none

/-- All entries of a matrix inside its dimension, as a list of rows. -/
def matToLists (m : SpMat) : List (List Nat) :=
  (List.range m.dim).map fun i => (List.range m.dim).map fun j => m.entry i j

/-- The booleanization of a matrix, as a list of rows of `Bool`. -/
def matToBoolLists (m : SpMat) : List (List Bool) :=
  (List.range m.dim).map fun i =>
    (List.range m.dim).map fun j => decide (m.entry i j ≠ 0)

/-- The NFA with exactly the transitions
`0-a→1, 1-b→1, 1-c→2, 2-c→3, 3-b→0` (the transitive-closure fixture of
`test_boolean_matrix.py`), with states and symbols in their Python
iteration order. -/
def closureNfa : ENfa Nat String :=
  { states := [0, 1, 2, 3]
    symbols := ["a", "b", "c"]
    transitions :=
      [(0, some "a", 1), (1, some "b", 1), (1, some "c", 2),
       (2, some "c", 3), (3, some "b", 0)]
    starts := []
    finals := [] }

/-- The per-symbol matrices of `BooleanMatrix.__and__`: for every label
in both dictionaries, the Kronecker product of the two matrices. -/
def interMatrices {σ τ L : Type} [DecidableEq L]
    (A : BooleanMatrix σ L) (B : BooleanMatrix τ L) : List (L × SpMat) :=
  ((akeys A.boolMatrices).filter fun l =>
      decide (l ∈ akeys B.boolMatrices)).map fun l =>
    (l, SpMat.kron ((afind A.boolMatrices l).getD (SpMat.zero 0))
          ((afind B.boolMatrices l).getD (SpMat.zero 0)))

/-- The state dictionary of `BooleanMatrix.__and__`: the nested loop over
both dictionaries maps the pair `(a, b)` to
`idx_A(a) * len(other.state_to_index) + idx_B(b)`. -/
def interStateToIndex {σ τ L : Type}
    (A : BooleanMatrix σ L) (B : BooleanMatrix τ L) : List ((σ × τ) × Nat) :=
  A.stateToIndex.flatMap fun p =>
    B.stateToIndex.map fun q =>
      ((p.1, q.1), p.2 * B.stateToIndex.length + q.2)

/-- The start states of `BooleanMatrix.__and__`: inside the same nested
loop, the pair is added when both components are start states. -/
def interStarts {σ τ L : Type} [DecidableEq σ] [DecidableEq τ]
    (A : BooleanMatrix σ L) (B : BooleanMatrix τ L) : List (σ × τ) :=
  A.stateToIndex.flatMap fun p =>
    B.stateToIndex.filterMap fun q =>
      if p.1 ∈ A.startStates ∧ q.1 ∈ B.startStates then some (p.1, q.1)
      else none

/-- The final states of `BooleanMatrix.__and__`. -/
def interFinals {σ τ L : Type} [DecidableEq σ] [DecidableEq τ]
    (A : BooleanMatrix σ L) (B : BooleanMatrix τ L) : List (σ × τ) :=
  A.stateToIndex.flatMap fun p =>
    B.stateToIndex.filterMap fun q =>
      if p.1 ∈ A.finalStates ∧ q.1 ∈ B.finalStates then some (p.1, q.1)
      else none

/-- `BooleanMatrix.__and__` (the `&` operator): the intersection of two
automata represented by boolean matrices. -/
def BooleanMatrix.inter {σ τ L : Type} [DecidableEq σ] [DecidableEq τ]
    [DecidableEq L] (A : BooleanMatrix σ L) (B : BooleanMatrix τ L) :
    BooleanMatrix (σ × τ) L :=
  { stateToIndex := interStateToIndex A B
    startStates := interStarts A B
    finalStates := interFinals A B
    boolMatrices := interMatrices A B }

/-- A `networkx.MultiDiGraph` with string edge labels: its node list (in
iteration order) and its edge list.  The middle component of an edge is
the value of its `label` attribute; `none` means the attribute is absent
from the edge's data dictionary (so that `edge_data["label"]` raises
`KeyError`), and `some ""` is an empty label. -/
structure LGraph (V : Type) where
  nodes : List V
  edges : List (V × Option String × V)

/-- `Epsilon() if not edge_data["label"] else Symbol(edge_data["label"])`:
the empty (falsy) label becomes the epsilon transition label. -/
def edgeLabelToSymbol (s : String) : Option String :=
  if s = "" then none else some s

/-- `graph_to_epsilon_nfa`: every edge becomes a transition (with the
empty label mapped to epsilon); missing `start_states` (`final_states`)
default to all graph nodes.  Accessing `edge_data["label"]` on an edge
without the attribute raises `KeyError`, embedded as `none`.  The state
and symbol lists record one concrete iteration order of the resulting
`pyformlang` state/symbol sets. -/
def graphToEpsilonNfa {V : Type} [DecidableEq V] (g : LGraph V)
    (startStates finalStates : Option (List V)) : Option (ENfa V String) :=
  if g.edges.all fun e => e.2.1.isSome then
    some { states := ((g.edges.flatMap fun e => [e.1, e.2.2]) ++
             startStates.getD g.nodes ++ finalStates.getD g.nodes).dedup
           symbols := (g.edges.filterMap fun e =>
             edgeLabelToSymbol (e.2.1.getD "")).dedup
           transitions := g.edges.map fun e =>
             (e.1, edgeLabelToSymbol (e.2.1.getD ""), e.2.2)
           starts := startStates.getD g.nodes
           finals := finalStates.getD g.nodes }
  else none

/-! ### Grammars in Weak Chomsky Normal Form and the CFPQ solvers

The entry `cfpq` first normalizes the grammar with
`cfg_to_weak_chomsky_normal_form`, which delegates entirely to the
external `pyformlang` library (`remove_useless_symbols`,
`eliminate_unit_productions`, `_decompose_productions`); the spec treats
that front-end as an external collaborator.  The solvers are therefore
embedded as functions of the normalized WCNF productions. -/

/-- A production body in Weak Chomsky Normal Form: empty, a single
terminal, or two nonterminals. -/
inductive Wbody (NT : Type) where
  | eps : Wbody NT
  | term : String → Wbody NT
  | two : NT → NT → Wbody NT
  deriving DecidableEq

/-- `_convert_wcnf_prods`, first component: nonterminals with an epsilon
production. -/
def wcnfEps {NT : Type} (prods : List (NT × Wbody NT)) : List NT :=
  prods.filterMap fun p =>
    match p.2 with
    | Wbody.eps => some p.1
    | _ => none

/-- `_convert_wcnf_prods`, second component: the pairs `(A, t)` with a
production `A → t`. -/
def wcnfTerm {NT : Type} (prods : List (NT × Wbody NT)) : List (NT × String) :=
  prods.filterMap fun p =>
    match p.2 with
    | Wbody.term t => some (p.1, t)
    | _ => none

/-- `_convert_wcnf_prods`, third component: the triples `(A, B, C)` with
a production `A → B C`. -/
def wcnfTwo {NT : Type} (prods : List (NT × Wbody NT)) :
    List (NT × NT × NT) :=
  prods.filterMap fun p =>
    match p.2 with
    | Wbody.two b c => some (p.1, b, c)
    | _ => none

/-- All nonterminals of the WCNF grammar (`wcnf.variables`). -/
def wcnfVars {NT : Type} [DecidableEq NT] (prods : List (NT × Wbody NT)) :
    List NT :=
  (prods.flatMap fun p =>
    p.1 :: (match p.2 with
            | Wbody.two b c => [b, c]
            | _ => [])).dedup

/-- The seed triples of Hellings: `(u, A, u)` for every node `u` and
nullable `A`, and `(u, A, v)` for every edge `u →ₐ v` and production
`A → a` (the union `by_eps | by_term` of the source, a Python set). -/
def hellingsSeed {V NT : Type} (g : LGraph V) (eps : List NT)
    (termP : List (NT × String)) : List (V × NT × V) :=
  (g.nodes.flatMap fun i => eps.map fun n => (i, n, i)) ++
  (g.edges.flatMap fun e => termP.filterMap fun p =>
    if e.2.1 = some p.2 then some (e.1, p.1, e.2.2) else none)

/-- One popped triple of the Hellings worklist: scan the whole relation
and collect the new triples licensed by the binary productions, skipping
triples already present. -/
def hellingsPopNew {V NT : Type} [DecidableEq V] [DecidableEq NT]
    (twoP : List (NT × NT × NT)) (result : List (V × NT × V))
    (t : V × NT × V) : List (V × NT × V) :=
  result.flatMap fun s =>
    (if s.2.2 = t.1 then
      twoP.filterMap fun p =>
        if p.2.1 = s.2.1 ∧ p.2.2 = t.2.1 ∧ (s.1, p.1, t.2.2) ∉ result
        then some (s.1, p.1, t.2.2) else none
    else []) ++
    (if t.2.2 = s.1 then
      twoP.filterMap fun p =>
        if p.2.1 = t.2.1 ∧ p.2.2 = s.2.1 ∧ (t.1, p.1, s.2.2) ∉ result
        then some (t.1, p.1, s.2.2) else none
    else [])

/-- The Hellings worklist loop: pop from the left, append the newly
derived triples to the queue (the deque may receive duplicates, as in the
source) and to the relation (`result |= to_add`, a set union, embedded by
appending the deduplicated new triples, all of which are fresh). -/
def hellingsLoop {V NT : Type} [DecidableEq V] [DecidableEq NT]
    (twoP : List (NT × NT × NT)) :
    Nat → List (V × NT × V) → List (V × NT × V) → List (V × NT × V)
  | 0, _, result => result
  | _ + 1, [], result => result
  | fuel + 1, t :: rest, result =>
    let news := hellingsPopNew twoP result t
    hellingsLoop twoP fuel (rest ++ news) (result ++ news.dedup)

/-- `_run_hellings_algorithm`: empty graph short-circuits to the empty
relation; otherwise seed and saturate.  The fuel bounds the number of
pops; it is generous enough that the queue always empties first (each
pop appends only triples absent from the relation at its start, and the
relation can grow at most `|V|²·|N|` times). -/
def runHellings {V NT : Type} [DecidableEq V] [DecidableEq NT]
    (prods : List (NT × Wbody NT)) (g : LGraph V) : List (V × NT × V) :=
  if g.nodes.length = 0 then []
  else
    let seed := (hellingsSeed g (wcnfEps prods) (wcnfTerm prods)).dedup
    let tot := g.nodes.length * g.nodes.length *
      (prods.map Prod.fst).dedup.length + seed.length
    hellingsLoop (wcnfTwo prods) ((tot + 1) * (2 * tot + 2) + 1) seed seed

/-! ### Dense list matrices (the materialized sparse matrices of the
matrix-based loops) -/

/-- A materialized sparse matrix: a list of rows of numeric entries. -/
abbrev LMat := List (List Nat)

/-- Entry access with zero default (absent cells of a sparse matrix). -/
def lget (A : LMat) (i j : Nat) : Nat :=
  (A.getD i []).getD j 0

/-- The zero matrix. -/
def lzero (r c : Nat) : LMat :=
  List.replicate r (List.replicate c 0)

/-- Elementwise addition of equal-shaped matrices. -/
def ladd (A B : LMat) : LMat :=
  List.zipWith (fun ra rb => List.zipWith (fun a b => a + b) ra rb) A B

/-- Square matrix product of `n × n` matrices. -/
def lmul (n : Nat) (A B : LMat) : LMat :=
  (List.range n).map fun i =>
    (List.range n).map fun j =>
      ((List.range n).map fun k => lget A i k * lget B k j).sum

/-- Rectangular product: each row of `A` times an `LMat` with `cols`
columns (`front @ matrix` on csr matrices). -/
def lmulRect (A : LMat) (B : LMat) (cols : Nat) : LMat :=
  A.map fun row =>
    (List.range cols).map fun j =>
      (row.enum.map fun p => p.2 * lget B p.1 j).sum

/-- `nnz` of a materialized matrix. -/
def lnnz (A : LMat) : Nat :=
  (A.map fun row => row.countP fun v => decide (v ≠ 0)).sum

/-- The coordinates of the nonzero cells, in row-major order (the
iteration order of `zip(*m.nonzero())` on a csr matrix). -/
def nonzerosL (A : LMat) : List (Nat × Nat) :=
  A.enum.flatMap fun p =>
    p.2.enum.filterMap fun q =>
      if q.2 ≠ 0 then some (p.1, q.1) else none

/-- Overwrite one cell. -/
def lsetCell (A : LMat) (i j v : Nat) : LMat :=
  A.set i ((A.getD i []).set j v)

/-- `A[[r], off:] += row`: numeric row addition into the columns from
`off` on. -/
def laddRowFrom (A : LMat) (r off : Nat) (row : List Nat) : LMat :=
  A.set r ((A.getD r []).take off ++
    List.zipWith (fun a b => a + b) ((A.getD r []).drop off) row)

/-- Materialize a function matrix at the given size. -/
def matL (sz : Nat) (M : SpMat) : LMat :=
  (List.range sz).map fun i => (List.range sz).map fun j => M.entry i j

/-! ### The matrix CFPQ solver -/

/-- Dictionary assignment for an existing key. -/
def aset {α β : Type} [DecidableEq α] (l : List (α × β)) (a : α) (b : β) :
    List (α × β) :=
  l.map fun p => if p.1 = a then (a, b) else p

/-- `node_to_idx[node]`: the dense index of a node in the node list. -/
def idxIn {V : Type} [DecidableEq V] (l : List V) (v : V) : Nat :=
  l.findIdx fun x => decide (x = v)

/-- The initial per-nonterminal matrix of `_run_matrix_algorithm`: the
diagonal for nullable nonterminals, and the cell `(u, v)` for every edge
`u →ₐ v` with a production `A → a`. -/
def matrixInit {V NT : Type} [DecidableEq V] [DecidableEq NT] (g : LGraph V)
    (eps : List NT) (termP : List (NT × String)) (nt : NT) : LMat :=
  let n := g.nodes.length
  (List.range n).map fun i =>
    (List.range n).map fun j =>
      if (nt ∈ eps ∧ i = j) ∨
        g.edges.any fun e =>
          decide (idxIn g.nodes e.1 = i) && decide (idxIn g.nodes e.2.2 = j) &&
          termP.any fun p => decide (p.1 = nt) && decide (e.2.1 = some p.2)
      then 1 else 0

/-- One sweep of the matrix fixed point: for every binary-production head
`A` in dictionary order, `M[A] += Σ_{A→BC} M[B]·M[C]`, tracking whether
any `nnz` changed. -/
def matrixSweep {NT : Type} [DecidableEq NT] (n : Nat)
    (heads : List (NT × List (NT × NT))) (mats : List (NT × LMat)) :
    List (NT × LMat) × Bool :=
  heads.foldl
    (fun acc h =>
      let cur := (afind acc.1 h.1).getD (lzero n n)
      let prodSum := h.2.foldl
        (fun s bc => ladd s (lmul n ((afind acc.1 bc.1).getD (lzero n n))
          ((afind acc.1 bc.2).getD (lzero n n)))) (lzero n n)
      let new := ladd cur prodSum
      (aset acc.1 h.1 new, acc.2 || decide (lnnz cur ≠ lnnz new)))
    (mats, false)

/-- The matrix fixed-point loop: sweep until no `nnz` changes.  Fuel
never runs out (every changing sweep adds at least one nonzero cell, and
there are at most `|N|·n²` cells). -/
def matrixLoop {NT : Type} [DecidableEq NT] (n : Nat)
    (heads : List (NT × List (NT × NT))) :
    Nat → List (NT × LMat) → List (NT × LMat)
  | 0, mats => mats
  | fuel + 1, mats =>
    let step := matrixSweep n heads mats
    if step.2 then matrixLoop n heads fuel step.1 else step.1

/-- The binary productions grouped by head in insertion order
(`two_nonterm_prods`, a `defaultdict` of sets). -/
def wcnfTwoGrouped {NT : Type} [DecidableEq NT]
    (prods : List (NT × Wbody NT)) : List (NT × List (NT × NT)) :=
  ((wcnfTwo prods).map Prod.fst).dedup.map fun h =>
    (h, (wcnfTwo prods).filterMap fun p =>
      if p.1 = h then some p.2 else none)

/-- `_run_matrix_algorithm`: one boolean matrix per nonterminal, seeded
from nullables and terminal productions, closed under
`M[A] += M[B]·M[C]`, read off as triples through the node list. -/
def runMatrix {V NT : Type} [DecidableEq V] [DecidableEq NT] [Inhabited V]
    (prods : List (NT × Wbody NT)) (g : LGraph V) : List (V × NT × V) :=
  if g.nodes.length = 0 then []
  else
    let n := g.nodes.length
    let mats0 := (wcnfVars prods).map fun nt =>
      (nt, matrixInit g (wcnfEps prods) (wcnfTerm prods) nt)
    let mats := matrixLoop n (wcnfTwoGrouped prods)
      ((wcnfVars prods).length * n * n + 1) mats0
    mats.flatMap fun p =>
      (nonzerosL p.2).map fun q =>
        (g.nodes.getD q.1 default, p.1, g.nodes.getD q.2 default)

/-! ### The `cfpq` entry point -/

/-- The effective start/final node set of `cfpq`: `None` and falsy
(empty) sets default to all graph nodes
(`if not start_nodes: start_nodes = graph.nodes`). -/
def cfpqEffective {V : Type} (nodes : List V) (o : Option (List V)) :
    List V :=
  match o with
  | none => nodes
  | some [] => nodes
  | some (v :: l) => v :: l

/-- The filtering done by `cfpq` after the chosen algorithm returns its
triples: an absent or falsy (empty) start/final set defaults to all graph
nodes; keep the pairs of the triples labeled by the requested start
symbol whose endpoints lie in the two sets. -/
def cfpqOn {V NT : Type} [DecidableEq V] [DecidableEq NT]
    (triples : List (V × NT × V)) (nodes : List V)
    (startNodes finalNodes : Option (List V)) (startSym : NT) :
    Finset (V × V) :=
  ((triples.filter fun t =>
      decide (t.2.1 = startSym) &&
      decide (t.1 ∈ cfpqEffective nodes startNodes) &&
      decide (t.2.2 ∈ cfpqEffective nodes finalNodes)).map
    fun t => (t.1, t.2.2)).toFinset

/-- `cfpq(HELLINGS, …)`. -/
def cfpqHellings {V NT : Type} [DecidableEq V] [DecidableEq NT]
    (prods : List (NT × Wbody NT)) (g : LGraph V)
    (startNodes finalNodes : Option (List V)) (startSym : NT) :
    Finset (V × V) :=
  cfpqOn (runHellings prods g) g.nodes startNodes finalNodes startSym

/-- `cfpq(MATRIX, …)`. -/
def cfpqMatrix {V NT : Type} [DecidableEq V] [DecidableEq NT] [Inhabited V]
    (prods : List (NT × Wbody NT)) (g : LGraph V)
    (startNodes finalNodes : Option (List V)) (startSym : NT) :
    Finset (V × V) :=
  cfpqOn (runMatrix prods g) g.nodes startNodes finalNodes startSym

/-! ### The tensor CFPQ solver's nullable seeding -/

/-- The identity matrix (`eye(n, dtype=bool).todok()`). -/
def SpMat.eye (d : Nat) : SpMat :=
  ⟨d, fun i j => if i = j ∧ i < d then 1 else 0⟩

/-- `EpsilonNFA.from_networkx(graph)` (external `pyformlang`): one
transition per edge that carries a `label` attribute, labeled by its
(uninterpreted) string value; no start or final states are taken from
plain node attributes absent from the graph model. -/
def fromNetworkx {V : Type} [DecidableEq V] (g : LGraph V) : ENfa V String :=
  { states := ((g.edges.flatMap fun e => [e.1, e.2.2]) ++ g.nodes).dedup
    symbols := (g.edges.filterMap fun e => e.2.1).dedup
    transitions := g.edges.filterMap fun e =>
      e.2.1.map fun s => (e.1, some s, e.2.2)
    starts := []
    finals := [] }

/-- Lines 203–205 of `_run_tensor_algorithm`: for every nullable
nonterminal, `graph_bool_matrix.bool_matrices[nonterm.value] +=
self_loop_matrix`.  The dictionary access raises `KeyError` (embedded as
`none`) whenever the graph bundle has no matrix stored under the
nonterminal's name — which is the case unless some graph edge is labeled
by that name. -/
def tensorSeedNullable {V : Type} [DecidableEq V]
    (gb : BooleanMatrix V String) (nullables : List String) :
    Option (BooleanMatrix V String) :=
  nullables.foldlM
    (fun b nt =>
      match afind b.boolMatrices nt with
      | none => none
      | some M =>
        some { b with
          boolMatrices :=
            aset b.boolMatrices nt
              (M.add (SpMat.eye b.stateToIndex.length)) })
    gb

/-! ### The RPQ tensor solver -/

/-- The inverted state dictionary
`{idx: state for state, idx in …}` as a lookup by index. -/
def ainv {σ : Type} (l : List (σ × Nat)) (i : Nat) : Option σ :=
  (l.find? fun p => decide (p.2 = i)).map Prod.fst

/-- The nonzero coordinates of a matrix in row-major order
(`zip(*m.nonzero())`). -/
def spNonzeros (m : SpMat) : List (Nat × Nat) :=
  (List.range m.dim).flatMap fun i =>
    (List.range m.dim).filterMap fun j =>
      if m.entry i j ≠ 0 then some (i, j) else none

/-- The intersection/closure/read-off core of `rpq_tensor`, applied to
the graph NFA produced by the adapter and the query bundle. -/
def rpqTensorOn {V Q : Type} [DecidableEq V] [DecidableEq Q]
    (nfa : ENfa V String) (q : BooleanMatrix Q String) : Finset (V × V) :=
  let ib := (fromNfa nfa).inter q
  let tc := getTransitiveClosure ib
  ((spNonzeros tc).filterMap fun p =>
    match ainv ib.stateToIndex p.1, ainv ib.stateToIndex p.2 with
    | some sf, some st =>
      if sf ∈ ib.startStates ∧ st ∈ ib.finalStates
      then some (sf.1, st.1) else none
    | _, _ => none).toFinset

/-- `rpq_tensor`: build the graph bundle through the adapter, intersect
with the query bundle, take the transitive closure, and emit the
graph-side components of the accepting nonzero pairs.  The query bundle
stands for `from_nfa(regex_to_min_dfa(query))`, whose regex front-end is
an external collaborator. -/
def rpqTensor {V Q : Type} [DecidableEq V] [DecidableEq Q] (g : LGraph V)
    (startNodes finalNodes : Option (List V))
    (q : BooleanMatrix Q String) : Option (Finset (V × V)) :=
  (graphToEpsilonNfa g startNodes finalNodes).map fun nfa =>
    rpqTensorOn nfa q

/-- One synchronized step of the product of the graph NFA and a query
NFA: a shared symbol taken simultaneously by a graph transition and a
query transition.  It depends only on the transition and symbol lists of
the two automata, not on their state enumerations or start/final
sets. -/
def SyncStep {V Q : Type} (nfa : ENfa V String) (qn : ENfa Q String)
    (x y : V × Q) : Prop :=
  ∃ l, (x.1, some l, y.1) ∈ nfa.transitions ∧
    (x.2, some l, y.2) ∈ qn.transitions ∧
    l ∈ nfa.symbols ∧ l ∈ qn.symbols

/-- Index `k` of the Kronecker-product bundle encodes the state pair
`p`: the graph state enumerated at row `k / |Q|` is `p.1` and the query
state enumerated at `k % |Q|` is `p.2`. -/
def encodes {V Q : Type} (nfa : ENfa V String) (qn : ENfa Q String)
    (p : V × Q) (k : Nat) : Prop :=
  nfa.states[k / qn.states.length]? = some p.1 ∧
  qn.states[k % qn.states.length]? = some p.2

/-- A one-state query NFA with no transitions, used to instantiate the
`rpq_tensor` filtering equation on a concrete input. -/
def c4QueryNfa : ENfa Nat String :=
  { states := [0]
    symbols := []
    transitions := []
    starts := [0]
    finals := [0] }

/-! ### The synchronous-BFS RPQ solver -/

/-- An element of the result set of `sync_bfs`: a reachable node
(`FIND_ALL_REACHABLE`) or a `(start, final)` pair
(`FIND_REACHABLE_FOR_EACH_START_NODE`). -/
inductive BfsRes (V : Type) where
  | node : V → BfsRes V
  | pair : V → V → BfsRes V
  deriving DecidableEq

/-- The per-symbol matrices of `_direct_sum` (`bmat` block diagonal). -/
def blockDiag (A B : SpMat) : SpMat :=
  ⟨A.dim + B.dim, fun i j =>
    if i < A.dim ∧ j < A.dim then A.entry i j
    else if A.dim ≤ i ∧ A.dim ≤ j then B.entry (i - A.dim) (j - A.dim)
    else 0⟩

/-- `_direct_sum`, restricted to the matrix dictionary (the only part
`sync_bfs` reads): the block diagonal per label shared by the two
bundles. -/
def dsumMatrices {σ τ L : Type} [DecidableEq L] (x : BooleanMatrix σ L)
    (y : BooleanMatrix τ L) : List (L × SpMat) :=
  ((akeys x.boolMatrices).filter fun l =>
      decide (l ∈ akeys y.boolMatrices)).map fun l =>
    (l, blockDiag ((afind x.boolMatrices l).getD (SpMat.zero 0))
      ((afind y.boolMatrices l).getD (SpMat.zero 0)))

/-- One front block of `_init_sync_bfs_front`: for every start state of
the query, its identity cell and the graph-side start indicator row. -/
def frontBlock {Q : Type} [DecidableEq Q]
    (other : BooleanMatrix Q String) (n : Nat) (selfRow : List Nat) : LMat :=
  let m := other.stateToIndex.length
  (List.range m).map fun r =>
    if other.startStates.any fun q =>
        decide (afind other.stateToIndex q = some r)
    then ((List.range m).map fun c => if c = r then 1 else 0) ++ selfRow
    else List.replicate (m + n) 0

/-- The graph-side indicator row of a single start node. -/
def startIndicatorRow {V : Type} [DecidableEq V]
    (self : BooleanMatrix V String) (s : V) : List Nat :=
  (List.range self.stateToIndex.length).map fun idx =>
    if afind self.stateToIndex s = some idx then 1 else 0

/-- The graph-side indicator row of a set of start nodes. -/
def startIndicatorRowAll {V : Type} [DecidableEq V]
    (self : BooleanMatrix V String) (starts : List V) : List Nat :=
  (List.range self.stateToIndex.length).map fun idx =>
    if starts.any fun s => decide (afind self.stateToIndex s = some idx)
    then 1 else 0

/-- `_init_sync_bfs_front`: one block per start node in per-node mode
(`vstack`, or the zero `m × (m+n)` matrix when there are no start
nodes); a single block carrying the union indicator otherwise. -/
def initFront {V Q : Type} [DecidableEq V] [DecidableEq Q]
    (self : BooleanMatrix V String) (other : BooleanMatrix Q String)
    (perNode : Bool) (startsOrdered : List V) : LMat :=
  let m := other.stateToIndex.length
  let n := self.stateToIndex.length
  if perNode then
    let fronts := startsOrdered.map fun s =>
      frontBlock other n (startIndicatorRow self s)
    if fronts = [] then lzero m (m + n) else fronts.flatten
  else
    frontBlock other n (startIndicatorRowAll self startsOrdered)

/-- The inner double loop of one `sync_bfs` step for one symbol matrix:
for every nonzero `(i, j)` of `front @ matrix` with `j` on the query
side, if the graph-side slice of row `i` is nonzero, set the query
identity cell of row `row_shift + j` and OR the slice into its graph
side. -/
def bfsStepMatrix (product : LMat) (m rows cols : Nat) : LMat :=
  (nonzerosL product).foldl
    (fun acc p =>
      if m ≤ p.2 then acc
      else
        let row := (product.getD p.1 []).drop m
        if row.all fun v => decide (v = 0) then acc
        else
          let rs := p.1 / m * m
          laddRowFrom (lsetCell acc (rs + p.2) p.2 1) (rs + p.2) m row)
    (lzero rows cols)

/-- One iteration of the `sync_bfs` `while` loop: union the per-symbol
steps into a copy of the front, zero the already-visited cells, and add
the remainder to `visited`. -/
def bfsStep (dsL : List LMat) (m rows cols : Nat) (visited front : LMat) :
    LMat × LMat :=
  let newFront := dsL.foldl
    (fun nf M => ladd nf (bfsStepMatrix (lmulRect front M cols) m rows cols))
    front
  let newFront' := newFront.mapIdx fun i row =>
    row.mapIdx fun j v => if lget visited i j ≠ 0 then 0 else v
  (ladd visited newFront', newFront')

/-- The `sync_bfs` `while` loop, stopping when `nnz(visited)` stops
growing; the fuel is generous enough that the loop always stops through
that test. -/
def bfsLoop (dsL : List LMat) (m rows cols : Nat) :
    Nat → LMat → LMat → LMat
  | 0, visited, _ => visited
  | fuel + 1, visited, front =>
    let step := bfsStep dsL m rows cols visited front
    if lnnz step.1 = lnnz visited then step.1
    else bfsLoop dsL m rows cols fuel step.1 step.2

/-- The extraction pass of `sync_bfs`: every visited coordinate outside
the initial front whose row is at a final query state and whose column is
a final graph state yields a node or a `(start, node)` pair. -/
def bfsExtract {V Q : Type} [DecidableEq V] [DecidableEq Q] [Inhabited V]
    (self : BooleanMatrix V String) (other : BooleanMatrix Q String)
    (perNode : Bool) (startsOrdered : List V) (visited init : LMat) :
    Finset (BfsRes V) :=
  let m := other.stateToIndex.length
  (((nonzerosL visited).filter fun p =>
      decide (p ∉ nonzerosL init)).filterMap fun p =>
    match ainv other.stateToIndex (p.1 % m) with
    | none => none
    | some qs =>
      if qs ∉ other.finalStates ∨ p.2 < m then none
      else
        match ainv self.stateToIndex (p.2 - m) with
        | none => none
        | some ss =>
          if ss ∉ self.finalStates then none
          else some (if perNode
            then BfsRes.pair (startsOrdered.getD (p.1 / m) default) ss
            else BfsRes.node ss)).toFinset

/-- The loop-and-extraction core of `sync_bfs`, with the materialized
direct-sum matrices and the initial front as explicit arguments. -/
def syncBfsCore {V Q : Type} [DecidableEq V] [DecidableEq Q] [Inhabited V]
    (self : BooleanMatrix V String) (other : BooleanMatrix Q String)
    (perNode : Bool) (dsL : List LMat) (init : LMat) : Finset (BfsRes V) :=
  let m := other.stateToIndex.length
  let n := self.stateToIndex.length
  bfsExtract self other perNode self.startStates
    (bfsLoop dsL m init.length (m + n)
      (init.length * (m + n) + 1) init init) init

/-- `BooleanMatrix.sync_bfs` (`self` is the graph bundle, `other` the
query bundle): empty state dictionaries short-circuit to the empty set;
otherwise run the synchronous BFS on the direct sum `query ⊕ graph` and
extract the accepting coordinates. -/
def syncBfs {V Q : Type} [DecidableEq V] [DecidableEq Q] [Inhabited V]
    (self : BooleanMatrix V String) (other : BooleanMatrix Q String)
    (perNode : Bool) : Finset (BfsRes V) :=
  if self.stateToIndex = [] ∨ other.stateToIndex = [] then ∅
  else
    syncBfsCore self other perNode
      ((dsumMatrices other self).map fun p =>
        matL (other.stateToIndex.length + self.stateToIndex.length) p.2)
      (initFront self other perNode self.startStates)

/-- The RPQ BFS mode selector. -/
inductive RpqMode where
  | findAllReachable : RpqMode
  | findReachableForEachStartNode : RpqMode
  deriving DecidableEq

/-- `rpq_bfs`: the graph bundle through the adapter against the query
bundle (standing for the external regex front-end's min-DFA). -/
def rpqBfs {V Q : Type} [DecidableEq V] [DecidableEq Q] [Inhabited V]
    (g : LGraph V) (q : BooleanMatrix Q String) (mode : RpqMode)
    (startStates finalStates : Option (List V)) :
    Option (Finset (BfsRes V)) :=
  (graphToEpsilonNfa g startStates finalStates).map fun nfa =>
    syncBfs (fromNfa nfa) q
      (decide (mode = RpqMode.findReachableForEachStartNode))

/-! ### The mutation performed by the `cfpq` entry point -/

/-- The `is_start` / `is_final` node attributes of a `networkx` node
data dictionary (other attributes are irrelevant here; an attribute
never written is `false`, standing for `absent`). -/
structure NodeAttrs where
  isStart : Bool
  isFinal : Bool
  deriving DecidableEq

/-- A `networkx.MultiDiGraph` together with its node attributes. -/
structure AGraph (V : Type) where
  nodes : List (V × NodeAttrs)
  edges : List (V × Option String × V)

/-- A `pyformlang` `CFG` restricted to the field the entry point
mutates. -/
structure CfgModel (NT : Type) where
  startSymbol : NT

/-- The mutation phase of `cfpq` (lines 58–69): overwrite the grammar's
start symbol with the `start_symbol` argument, and set `is_start`
(`is_final`) to `True` on every graph node belonging to the effective
start (final) set.  The mutated objects are the caller's. -/
def cfpqMutate {V NT : Type} [DecidableEq V] (g : AGraph V)
    (cfg : CfgModel NT) (startNodes finalNodes : Option (List V))
    (startSym : NT) : AGraph V × CfgModel NT :=
  let S := cfpqEffective (g.nodes.map Prod.fst) startNodes
  let F := cfpqEffective (g.nodes.map Prod.fst) finalNodes
  ({ g with nodes := g.nodes.map fun p =>
      (p.1, { isStart := if p.1 ∈ S then true else p.2.isStart
              isFinal := if p.1 ∈ F then true else p.2.isFinal }) },
   { cfg with startSymbol := startSym })

/-- The full `cfpq` call with the Hellings algorithm, in state-passing
style: the returned pair set together with the graph and grammar objects
as the caller observes them after the call. -/
def cfpqHellingsFull {V NT : Type} [DecidableEq V] [DecidableEq NT]
    (prods : List (NT × Wbody NT)) (g : AGraph V) (cfg : CfgModel NT)
    (startNodes finalNodes : Option (List V)) (startSym : NT) :
    Finset (V × V) × AGraph V × CfgModel NT :=
  let mutated := cfpqMutate g cfg startNodes finalNodes startSym
  (cfpqHellings prods ⟨mutated.1.nodes.map Prod.fst, mutated.1.edges⟩
      startNodes finalNodes startSym,
   mutated.1, mutated.2)

/-! ### Concrete fixtures -/

/-- The labeled-two-cycles graph `build_two_cycles(1, 1, ("a", "b"))`:
three nodes, an `a`-cycle `0 ↔ 1` and a `b`-cycle `0 ↔ 2`. -/
def twoCyclesGraph : LGraph Nat :=
  { nodes := [0, 1, 2]
    edges := [(0, some "a", 1), (1, some "a", 0),
              (0, some "b", 2), (2, some "b", 0)] }

/-- Modelled from the spec: the WCNF normalization (§4.G) of the grammar
`S → ε | a S b S | S S` — performed in the source by the external
`pyformlang` front-end.  Terminals are replaced by fresh nonterminals
`A → a`, `B → b` and long bodies are decomposed through fresh
nonterminals `X1`, `X2`; the nullable `S → ε` is retained. -/
def nullableWcnf : List (String × Wbody String) :=
  [("S", Wbody.eps), ("S", Wbody.two "S" "S"), ("S", Wbody.two "A" "X1"),
   ("X1", Wbody.two "S" "X2"), ("X2", Wbody.two "B" "S"),
   ("A", Wbody.term "a"), ("B", Wbody.term "b")]

/-- Modelled from the spec: the WCNF of the grammar `S → ε` (already in
normal form; the external normalization leaves it unchanged). -/
def epsWcnf : List (String × Wbody String) :=
  [("S", Wbody.eps)]

/-- The empty graph (no vertices, no edges). -/
def emptyGraph : LGraph Nat :=
  { nodes := [], edges := [] }

/-- A graph with one node and no edges. -/
def oneNodeGraph : LGraph Nat :=
  { nodes := [0], edges := [] }

/-- The straight chain with vertices `0..9` whose consecutive edge
labels spell `abbabbabb`. -/
def chainGraph : LGraph Nat :=
  { nodes := [0, 1, 2, 3, 4, 5, 6, 7, 8, 9]
    edges := [(0, some "a", 1), (1, some "b", 2), (2, some "b", 3),
              (3, some "a", 4), (4, some "b", 5), (5, some "b", 6),
              (6, some "a", 7), (7, some "b", 8), (8, some "b", 9)] }

/-- Modelled from the spec: the external front-end contract (§4.D)
`regex_to_min_dfa` applied to the regex `a·bb` — the minimal partial DFA
`0 -a→ 1 -b→ 2 -b→ 3` with start `0` and final `3` (compare the spec's
literal scenario for `a*b*c*`, whose minimal DFA likewise has no trap
state). -/
def dfaAbbNfa : ENfa Nat String :=
  { states := [0, 1, 2, 3]
    symbols := ["a", "b"]
    transitions := [(0, some "a", 1), (1, some "b", 2), (2, some "b", 3)]
    starts := [0]
    finals := [3] }

/-- The epsilon-NFA the adapter produces for `chainGraph` with default
start/final sets (the value of `graphToEpsilonNfa chainGraph none none`). -/
def chainNfa : ENfa Nat String :=
  { states := [0, 1, 2, 3, 4, 5, 6, 7, 8, 9]
    symbols := ["a", "b"]
    transitions := [(0, some "a", 1), (1, some "b", 2), (2, some "b", 3),
                    (3, some "a", 4), (4, some "b", 5), (5, some "b", 6),
                    (6, some "a", 7), (7, some "b", 8), (8, some "b", 9)]
    starts := [0, 1, 2, 3, 4, 5, 6, 7, 8, 9]
    finals := [0, 1, 2, 3, 4, 5, 6, 7, 8, 9] }

/-- Concrete BFS data for the chain-graph scenario. -/
def c6DA : LMat :=
  [[0, 1, 0, 0, 0, 0, 0, 0, 0, 0, 0, 0, 0, 0],
   [0, 0, 0, 0, 0, 0, 0, 0, 0, 0, 0, 0, 0, 0],
   [0, 0, 0, 0, 0, 0, 0, 0, 0, 0, 0, 0, 0, 0],
   [0, 0, 0, 0, 0, 0, 0, 0, 0, 0, 0, 0, 0, 0],
   [0, 0, 0, 0, 0, 1, 0, 0, 0, 0, 0, 0, 0, 0],
   [0, 0, 0, 0, 0, 0, 0, 0, 0, 0, 0, 0, 0, 0],
   [0, 0, 0, 0, 0, 0, 0, 0, 0, 0, 0, 0, 0, 0],
   [0, 0, 0, 0, 0, 0, 0, 0, 1, 0, 0, 0, 0, 0],
   [0, 0, 0, 0, 0, 0, 0, 0, 0, 0, 0, 0, 0, 0],
   [0, 0, 0, 0, 0, 0, 0, 0, 0, 0, 0, 0, 0, 0],
   [0, 0, 0, 0, 0, 0, 0, 0, 0, 0, 0, 1, 0, 0],
   [0, 0, 0, 0, 0, 0, 0, 0, 0, 0, 0, 0, 0, 0],
   [0, 0, 0, 0, 0, 0, 0, 0, 0, 0, 0, 0, 0, 0],
   [0, 0, 0, 0, 0, 0, 0, 0, 0, 0, 0, 0, 0, 0]]

/-- Concrete BFS data for the chain-graph scenario. -/
def c6DB : LMat :=
  [[0, 0, 0, 0, 0, 0, 0, 0, 0, 0, 0, 0, 0, 0],
   [0, 0, 1, 0, 0, 0, 0, 0, 0, 0, 0, 0, 0, 0],
   [0, 0, 0, 1, 0, 0, 0, 0, 0, 0, 0, 0, 0, 0],
   [0, 0, 0, 0, 0, 0, 0, 0, 0, 0, 0, 0, 0, 0],
   [0, 0, 0, 0, 0, 0, 0, 0, 0, 0, 0, 0, 0, 0],
   [0, 0, 0, 0, 0, 0, 1, 0, 0, 0, 0, 0, 0, 0],
   [0, 0, 0, 0, 0, 0, 0, 1, 0, 0, 0, 0, 0, 0],
   [0, 0, 0, 0, 0, 0, 0, 0, 0, 0, 0, 0, 0, 0],
   [0, 0, 0, 0, 0, 0, 0, 0, 0, 1, 0, 0, 0, 0],
   [0, 0, 0, 0, 0, 0, 0, 0, 0, 0, 1, 0, 0, 0],
   [0, 0, 0, 0, 0, 0, 0, 0, 0, 0, 0, 0, 0, 0],
   [0, 0, 0, 0, 0, 0, 0, 0, 0, 0, 0, 0, 1, 0],
   [0, 0, 0, 0, 0, 0, 0, 0, 0, 0, 0, 0, 0, 1],
   [0, 0, 0, 0, 0, 0, 0, 0, 0, 0, 0, 0, 0, 0]]

/-- Concrete BFS data for the chain-graph scenario. -/
def c6I0 : LMat :=
  [[1, 0, 0, 0, 1, 0, 0, 0, 0, 0, 0, 0, 0, 0],
   [0, 0, 0, 0, 0, 0, 0, 0, 0, 0, 0, 0, 0, 0],
   [0, 0, 0, 0, 0, 0, 0, 0, 0, 0, 0, 0, 0, 0],
   [0, 0, 0, 0, 0, 0, 0, 0, 0, 0, 0, 0, 0, 0],
   [1, 0, 0, 0, 0, 1, 0, 0, 0, 0, 0, 0, 0, 0],
   [0, 0, 0, 0, 0, 0, 0, 0, 0, 0, 0, 0, 0, 0],
   [0, 0, 0, 0, 0, 0, 0, 0, 0, 0, 0, 0, 0, 0],
   [0, 0, 0, 0, 0, 0, 0, 0, 0, 0, 0, 0, 0, 0],
   [1, 0, 0, 0, 0, 0, 1, 0, 0, 0, 0, 0, 0, 0],
   [0, 0, 0, 0, 0, 0, 0, 0, 0, 0, 0, 0, 0, 0],
   [0, 0, 0, 0, 0, 0, 0, 0, 0, 0, 0, 0, 0, 0],
   [0, 0, 0, 0, 0, 0, 0, 0, 0, 0, 0, 0, 0, 0],
   [1, 0, 0, 0, 0, 0, 0, 1, 0, 0, 0, 0, 0, 0],
   [0, 0, 0, 0, 0, 0, 0, 0, 0, 0, 0, 0, 0, 0],
   [0, 0, 0, 0, 0, 0, 0, 0, 0, 0, 0, 0, 0, 0],
   [0, 0, 0, 0, 0, 0, 0, 0, 0, 0, 0, 0, 0, 0],
   [1, 0, 0, 0, 0, 0, 0, 0, 1, 0, 0, 0, 0, 0],
   [0, 0, 0, 0, 0, 0, 0, 0, 0, 0, 0, 0, 0, 0],
   [0, 0, 0, 0, 0, 0, 0, 0, 0, 0, 0, 0, 0, 0],
   [0, 0, 0, 0, 0, 0, 0, 0, 0, 0, 0, 0, 0, 0],
   [1, 0, 0, 0, 0, 0, 0, 0, 0, 1, 0, 0, 0, 0],
   [0, 0, 0, 0, 0, 0, 0, 0, 0, 0, 0, 0, 0, 0],
   [0, 0, 0, 0, 0, 0, 0, 0, 0, 0, 0, 0, 0, 0],
   [0, 0, 0, 0, 0, 0, 0, 0, 0, 0, 0, 0, 0, 0],
   [1, 0, 0, 0, 0, 0, 0, 0, 0, 0, 1, 0, 0, 0],
   [0, 0, 0, 0, 0, 0, 0, 0, 0, 0, 0, 0, 0, 0],
   [0, 0, 0, 0, 0, 0, 0, 0, 0, 0, 0, 0, 0, 0],
   [0, 0, 0, 0, 0, 0, 0, 0, 0, 0, 0, 0, 0, 0],
   [1, 0, 0, 0, 0, 0, 0, 0, 0, 0, 0, 1, 0, 0],
   [0, 0, 0, 0, 0, 0, 0, 0, 0, 0, 0, 0, 0, 0],
   [0, 0, 0, 0, 0, 0, 0, 0, 0, 0, 0, 0, 0, 0],
   [0, 0, 0, 0, 0, 0, 0, 0, 0, 0, 0, 0, 0, 0],
   [1, 0, 0, 0, 0, 0, 0, 0, 0, 0, 0, 0, 1, 0],
   [0, 0, 0, 0, 0, 0, 0, 0, 0, 0, 0, 0, 0, 0],
   [0, 0, 0, 0, 0, 0, 0, 0, 0, 0, 0, 0, 0, 0],
   [0, 0, 0, 0, 0, 0, 0, 0, 0, 0, 0, 0, 0, 0],
   [1, 0, 0, 0, 0, 0, 0, 0, 0, 0, 0, 0, 0, 1],
   [0, 0, 0, 0, 0, 0, 0, 0, 0, 0, 0, 0, 0, 0],
   [0, 0, 0, 0, 0, 0, 0, 0, 0, 0, 0, 0, 0, 0],
   [0, 0, 0, 0, 0, 0, 0, 0, 0, 0, 0, 0, 0, 0]]

/-- Concrete BFS data for the chain-graph scenario. -/
def c6V1 : LMat :=
  [[1, 0, 0, 0, 1, 0, 0, 0, 0, 0, 0, 0, 0, 0],
   [0, 1, 0, 0, 0, 1, 0, 0, 0, 0, 0, 0, 0, 0],
   [0, 0, 0, 0, 0, 0, 0, 0, 0, 0, 0, 0, 0, 0],
   [0, 0, 0, 0, 0, 0, 0, 0, 0, 0, 0, 0, 0, 0],
   [1, 0, 0, 0, 0, 1, 0, 0, 0, 0, 0, 0, 0, 0],
   [0, 0, 0, 0, 0, 0, 0, 0, 0, 0, 0, 0, 0, 0],
   [0, 0, 0, 0, 0, 0, 0, 0, 0, 0, 0, 0, 0, 0],
   [0, 0, 0, 0, 0, 0, 0, 0, 0, 0, 0, 0, 0, 0],
   [1, 0, 0, 0, 0, 0, 1, 0, 0, 0, 0, 0, 0, 0],
   [0, 0, 0, 0, 0, 0, 0, 0, 0, 0, 0, 0, 0, 0],
   [0, 0, 0, 0, 0, 0, 0, 0, 0, 0, 0, 0, 0, 0],
   [0, 0, 0, 0, 0, 0, 0, 0, 0, 0, 0, 0, 0, 0],
   [1, 0, 0, 0, 0, 0, 0, 1, 0, 0, 0, 0, 0, 0],
   [0, 1, 0, 0, 0, 0, 0, 0, 1, 0, 0, 0, 0, 0],
   [0, 0, 0, 0, 0, 0, 0, 0, 0, 0, 0, 0, 0, 0],
   [0, 0, 0, 0, 0, 0, 0, 0, 0, 0, 0, 0, 0, 0],
   [1, 0, 0, 0, 0, 0, 0, 0, 1, 0, 0, 0, 0, 0],
   [0, 0, 0, 0, 0, 0, 0, 0, 0, 0, 0, 0, 0, 0],
   [0, 0, 0, 0, 0, 0, 0, 0, 0, 0, 0, 0, 0, 0],
   [0, 0, 0, 0, 0, 0, 0, 0, 0, 0, 0, 0, 0, 0],
   [1, 0, 0, 0, 0, 0, 0, 0, 0, 1, 0, 0, 0, 0],
   [0, 0, 0, 0, 0, 0, 0, 0, 0, 0, 0, 0, 0, 0],
   [0, 0, 0, 0, 0, 0, 0, 0, 0, 0, 0, 0, 0, 0],
   [0, 0, 0, 0, 0, 0, 0, 0, 0, 0, 0, 0, 0, 0],
   [1, 0, 0, 0, 0, 0, 0, 0, 0, 0, 1, 0, 0, 0],
   [0, 1, 0, 0, 0, 0, 0, 0, 0, 0, 0, 1, 0, 0],
   [0, 0, 0, 0, 0, 0, 0, 0, 0, 0, 0, 0, 0, 0],
   [0, 0, 0, 0, 0, 0, 0, 0, 0, 0, 0, 0, 0, 0],
   [1, 0, 0, 0, 0, 0, 0, 0, 0, 0, 0, 1, 0, 0],
   [0, 0, 0, 0, 0, 0, 0, 0, 0, 0, 0, 0, 0, 0],
   [0, 0, 0, 0, 0, 0, 0, 0, 0, 0, 0, 0, 0, 0],
   [0, 0, 0, 0, 0, 0, 0, 0, 0, 0, 0, 0, 0, 0],
   [1, 0, 0, 0, 0, 0, 0, 0, 0, 0, 0, 0, 1, 0],
   [0, 0, 0, 0, 0, 0, 0, 0, 0, 0, 0, 0, 0, 0],
   [0, 0, 0, 0, 0, 0, 0, 0, 0, 0, 0, 0, 0, 0],
   [0, 0, 0, 0, 0, 0, 0, 0, 0, 0, 0, 0, 0, 0],
   [1, 0, 0, 0, 0, 0, 0, 0, 0, 0, 0, 0, 0, 1],
   [0, 0, 0, 0, 0, 0, 0, 0, 0, 0, 0, 0, 0, 0],
   [0, 0, 0, 0, 0, 0, 0, 0, 0, 0, 0, 0, 0, 0],
   [0, 0, 0, 0, 0, 0, 0, 0, 0, 0, 0, 0, 0, 0]]

/-- Concrete BFS data for the chain-graph scenario. -/
def c6F1 : LMat :=
  [[0, 0, 0, 0, 0, 0, 0, 0, 0, 0, 0, 0, 0, 0],
   [0, 1, 0, 0, 0, 1, 0, 0, 0, 0, 0, 0, 0, 0],
   [0, 0, 0, 0, 0, 0, 0, 0, 0, 0, 0, 0, 0, 0],
   [0, 0, 0, 0, 0, 0, 0, 0, 0, 0, 0, 0, 0, 0],
   [0, 0, 0, 0, 0, 0, 0, 0, 0, 0, 0, 0, 0, 0],
   [0, 0, 0, 0, 0, 0, 0, 0, 0, 0, 0, 0, 0, 0],
   [0, 0, 0, 0, 0, 0, 0, 0, 0, 0, 0, 0, 0, 0],
   [0, 0, 0, 0, 0, 0, 0, 0, 0, 0, 0, 0, 0, 0],
   [0, 0, 0, 0, 0, 0, 0, 0, 0, 0, 0, 0, 0, 0],
   [0, 0, 0, 0, 0, 0, 0, 0, 0, 0, 0, 0, 0, 0],
   [0, 0, 0, 0, 0, 0, 0, 0, 0, 0, 0, 0, 0, 0],
   [0, 0, 0, 0, 0, 0, 0, 0, 0, 0, 0, 0, 0, 0],
   [0, 0, 0, 0, 0, 0, 0, 0, 0, 0, 0, 0, 0, 0],
   [0, 1, 0, 0, 0, 0, 0, 0, 1, 0, 0, 0, 0, 0],
   [0, 0, 0, 0, 0, 0, 0, 0, 0, 0, 0, 0, 0, 0],
   [0, 0, 0, 0, 0, 0, 0, 0, 0, 0, 0, 0, 0, 0],
   [0, 0, 0, 0, 0, 0, 0, 0, 0, 0, 0, 0, 0, 0],
   [0, 0, 0, 0, 0, 0, 0, 0, 0, 0, 0, 0, 0, 0],
   [0, 0, 0, 0, 0, 0, 0, 0, 0, 0, 0, 0, 0, 0],
   [0, 0, 0, 0, 0, 0, 0, 0, 0, 0, 0, 0, 0, 0],
   [0, 0, 0, 0, 0, 0, 0, 0, 0, 0, 0, 0, 0, 0],
   [0, 0, 0, 0, 0, 0, 0, 0, 0, 0, 0, 0, 0, 0],
   [0, 0, 0, 0, 0, 0, 0, 0, 0, 0, 0, 0, 0, 0],
   [0, 0, 0, 0, 0, 0, 0, 0, 0, 0, 0, 0, 0, 0],
   [0, 0, 0, 0, 0, 0, 0, 0, 0, 0, 0, 0, 0, 0],
   [0, 1, 0, 0, 0, 0, 0, 0, 0, 0, 0, 1, 0, 0],
   [0, 0, 0, 0, 0, 0, 0, 0, 0, 0, 0, 0, 0, 0],
   [0, 0, 0, 0, 0, 0, 0, 0, 0, 0, 0, 0, 0, 0],
   [0, 0, 0, 0, 0, 0, 0, 0, 0, 0, 0, 0, 0, 0],
   [0, 0, 0, 0, 0, 0, 0, 0, 0, 0, 0, 0, 0, 0],
   [0, 0, 0, 0, 0, 0, 0, 0, 0, 0, 0, 0, 0, 0],
   [0, 0, 0, 0, 0, 0, 0, 0, 0, 0, 0, 0, 0, 0],
   [0, 0, 0, 0, 0, 0, 0, 0, 0, 0, 0, 0, 0, 0],
   [0, 0, 0, 0, 0, 0, 0, 0, 0, 0, 0, 0, 0, 0],
   [0, 0, 0, 0, 0, 0, 0, 0, 0, 0, 0, 0, 0, 0],
   [0, 0, 0, 0, 0, 0, 0, 0, 0, 0, 0, 0, 0, 0],
   [0, 0, 0, 0, 0, 0, 0, 0, 0, 0, 0, 0, 0, 0],
   [0, 0, 0, 0, 0, 0, 0, 0, 0, 0, 0, 0, 0, 0],
   [0, 0, 0, 0, 0, 0, 0, 0, 0, 0, 0, 0, 0, 0],
   [0, 0, 0, 0, 0, 0, 0, 0, 0, 0, 0, 0, 0, 0]]

/-- Concrete BFS data for the chain-graph scenario. -/
def c6V2 : LMat :=
  [[1, 0, 0, 0, 1, 0, 0, 0, 0, 0, 0, 0, 0, 0],
   [0, 1, 0, 0, 0, 1, 0, 0, 0, 0, 0, 0, 0, 0],
   [0, 0, 1, 0, 0, 0, 1, 0, 0, 0, 0, 0, 0, 0],
   [0, 0, 0, 0, 0, 0, 0, 0, 0, 0, 0, 0, 0, 0],
   [1, 0, 0, 0, 0, 1, 0, 0, 0, 0, 0, 0, 0, 0],
   [0, 0, 0, 0, 0, 0, 0, 0, 0, 0, 0, 0, 0, 0],
   [0, 0, 0, 0, 0, 0, 0, 0, 0, 0, 0, 0, 0, 0],
   [0, 0, 0, 0, 0, 0, 0, 0, 0, 0, 0, 0, 0, 0],
   [1, 0, 0, 0, 0, 0, 1, 0, 0, 0, 0, 0, 0, 0],
   [0, 0, 0, 0, 0, 0, 0, 0, 0, 0, 0, 0, 0, 0],
   [0, 0, 0, 0, 0, 0, 0, 0, 0, 0, 0, 0, 0, 0],
   [0, 0, 0, 0, 0, 0, 0, 0, 0, 0, 0, 0, 0, 0],
   [1, 0, 0, 0, 0, 0, 0, 1, 0, 0, 0, 0, 0, 0],
   [0, 1, 0, 0, 0, 0, 0, 0, 1, 0, 0, 0, 0, 0],
   [0, 0, 1, 0, 0, 0, 0, 0, 0, 1, 0, 0, 0, 0],
   [0, 0, 0, 0, 0, 0, 0, 0, 0, 0, 0, 0, 0, 0],
   [1, 0, 0, 0, 0, 0, 0, 0, 1, 0, 0, 0, 0, 0],
   [0, 0, 0, 0, 0, 0, 0, 0, 0, 0, 0, 0, 0, 0],
   [0, 0, 0, 0, 0, 0, 0, 0, 0, 0, 0, 0, 0, 0],
   [0, 0, 0, 0, 0, 0, 0, 0, 0, 0, 0, 0, 0, 0],
   [1, 0, 0, 0, 0, 0, 0, 0, 0, 1, 0, 0, 0, 0],
   [0, 0, 0, 0, 0, 0, 0, 0, 0, 0, 0, 0, 0, 0],
   [0, 0, 0, 0, 0, 0, 0, 0, 0, 0, 0, 0, 0, 0],
   [0, 0, 0, 0, 0, 0, 0, 0, 0, 0, 0, 0, 0, 0],
   [1, 0, 0, 0, 0, 0, 0, 0, 0, 0, 1, 0, 0, 0],
   [0, 1, 0, 0, 0, 0, 0, 0, 0, 0, 0, 1, 0, 0],
   [0, 0, 1, 0, 0, 0, 0, 0, 0, 0, 0, 0, 1, 0],
   [0, 0, 0, 0, 0, 0, 0, 0, 0, 0, 0, 0, 0, 0],
   [1, 0, 0, 0, 0, 0, 0, 0, 0, 0, 0, 1, 0, 0],
   [0, 0, 0, 0, 0, 0, 0, 0, 0, 0, 0, 0, 0, 0],
   [0, 0, 0, 0, 0, 0, 0, 0, 0, 0, 0, 0, 0, 0],
   [0, 0, 0, 0, 0, 0, 0, 0, 0, 0, 0, 0, 0, 0],
   [1, 0, 0, 0, 0, 0, 0, 0, 0, 0, 0, 0, 1, 0],
   [0, 0, 0, 0, 0, 0, 0, 0, 0, 0, 0, 0, 0, 0],
   [0, 0, 0, 0, 0, 0, 0, 0, 0, 0, 0, 0, 0, 0],
   [0, 0, 0, 0, 0, 0, 0, 0, 0, 0, 0, 0, 0, 0],
   [1, 0, 0, 0, 0, 0, 0, 0, 0, 0, 0, 0, 0, 1],
   [0, 0, 0, 0, 0, 0, 0, 0, 0, 0, 0, 0, 0, 0],
   [0, 0, 0, 0, 0, 0, 0, 0, 0, 0, 0, 0, 0, 0],
   [0, 0, 0, 0, 0, 0, 0, 0, 0, 0, 0, 0, 0, 0]]

/-- Concrete BFS data for the chain-graph scenario. -/
def c6F2 : LMat :=
  [[0, 0, 0, 0, 0, 0, 0, 0, 0, 0, 0, 0, 0, 0],
   [0, 0, 0, 0, 0, 0, 0, 0, 0, 0, 0, 0, 0, 0],
   [0, 0, 1, 0, 0, 0, 1, 0, 0, 0, 0, 0, 0, 0],
   [0, 0, 0, 0, 0, 0, 0, 0, 0, 0, 0, 0, 0, 0],
   [0, 0, 0, 0, 0, 0, 0, 0, 0, 0, 0, 0, 0, 0],
   [0, 0, 0, 0, 0, 0, 0, 0, 0, 0, 0, 0, 0, 0],
   [0, 0, 0, 0, 0, 0, 0, 0, 0, 0, 0, 0, 0, 0],
   [0, 0, 0, 0, 0, 0, 0, 0, 0, 0, 0, 0, 0, 0],
   [0, 0, 0, 0, 0, 0, 0, 0, 0, 0, 0, 0, 0, 0],
   [0, 0, 0, 0, 0, 0, 0, 0, 0, 0, 0, 0, 0, 0],
   [0, 0, 0, 0, 0, 0, 0, 0, 0, 0, 0, 0, 0, 0],
   [0, 0, 0, 0, 0, 0, 0, 0, 0, 0, 0, 0, 0, 0],
   [0, 0, 0, 0, 0, 0, 0, 0, 0, 0, 0, 0, 0, 0],
   [0, 0, 0, 0, 0, 0, 0, 0, 0, 0, 0, 0, 0, 0],
   [0, 0, 1, 0, 0, 0, 0, 0, 0, 1, 0, 0, 0, 0],
   [0, 0, 0, 0, 0, 0, 0, 0, 0, 0, 0, 0, 0, 0],
   [0, 0, 0, 0, 0, 0, 0, 0, 0, 0, 0, 0, 0, 0],
   [0, 0, 0, 0, 0, 0, 0, 0, 0, 0, 0, 0, 0, 0],
   [0, 0, 0, 0, 0, 0, 0, 0, 0, 0, 0, 0, 0, 0],
   [0, 0, 0, 0, 0, 0, 0, 0, 0, 0, 0, 0, 0, 0],
   [0, 0, 0, 0, 0, 0, 0, 0, 0, 0, 0, 0, 0, 0],
   [0, 0, 0, 0, 0, 0, 0, 0, 0, 0, 0, 0, 0, 0],
   [0, 0, 0, 0, 0, 0, 0, 0, 0, 0, 0, 0, 0, 0],
   [0, 0, 0, 0, 0, 0, 0, 0, 0, 0, 0, 0, 0, 0],
   [0, 0, 0, 0, 0, 0, 0, 0, 0, 0, 0, 0, 0, 0],
   [0, 0, 0, 0, 0, 0, 0, 0, 0, 0, 0, 0, 0, 0],
   [0, 0, 1, 0, 0, 0, 0, 0, 0, 0, 0, 0, 1, 0],
   [0, 0, 0, 0, 0, 0, 0, 0, 0, 0, 0, 0, 0, 0],
   [0, 0, 0, 0, 0, 0, 0, 0, 0, 0, 0, 0, 0, 0],
   [0, 0, 0, 0, 0, 0, 0, 0, 0, 0, 0, 0, 0, 0],
   [0, 0, 0, 0, 0, 0, 0, 0, 0, 0, 0, 0, 0, 0],
   [0, 0, 0, 0, 0, 0, 0, 0, 0, 0, 0, 0, 0, 0],
   [0, 0, 0, 0, 0, 0, 0, 0, 0, 0, 0, 0, 0, 0],
   [0, 0, 0, 0, 0, 0, 0, 0, 0, 0, 0, 0, 0, 0],
   [0, 0, 0, 0, 0, 0, 0, 0, 0, 0, 0, 0, 0, 0],
   [0, 0, 0, 0, 0, 0, 0, 0, 0, 0, 0, 0, 0, 0],
   [0, 0, 0, 0, 0, 0, 0, 0, 0, 0, 0, 0, 0, 0],
   [0, 0, 0, 0, 0, 0, 0, 0, 0, 0, 0, 0, 0, 0],
   [0, 0, 0, 0, 0, 0, 0, 0, 0, 0, 0, 0, 0, 0],
   [0, 0, 0, 0, 0, 0, 0, 0, 0, 0, 0, 0, 0, 0]]

/-- Concrete BFS data for the chain-graph scenario. -/
def c6V3 : LMat :=
  [[1, 0, 0, 0, 1, 0, 0, 0, 0, 0, 0, 0, 0, 0],
   [0, 1, 0, 0, 0, 1, 0, 0, 0, 0, 0, 0, 0, 0],
   [0, 0, 1, 0, 0, 0, 1, 0, 0, 0, 0, 0, 0, 0],
   [0, 0, 0, 1, 0, 0, 0, 1, 0, 0, 0, 0, 0, 0],
   [1, 0, 0, 0, 0, 1, 0, 0, 0, 0, 0, 0, 0, 0],
   [0, 0, 0, 0, 0, 0, 0, 0, 0, 0, 0, 0, 0, 0],
   [0, 0, 0, 0, 0, 0, 0, 0, 0, 0, 0, 0, 0, 0],
   [0, 0, 0, 0, 0, 0, 0, 0, 0, 0, 0, 0, 0, 0],
   [1, 0, 0, 0, 0, 0, 1, 0, 0, 0, 0, 0, 0, 0],
   [0, 0, 0, 0, 0, 0, 0, 0, 0, 0, 0, 0, 0, 0],
   [0, 0, 0, 0, 0, 0, 0, 0, 0, 0, 0, 0, 0, 0],
   [0, 0, 0, 0, 0, 0, 0, 0, 0, 0, 0, 0, 0, 0],
   [1, 0, 0, 0, 0, 0, 0, 1, 0, 0, 0, 0, 0, 0],
   [0, 1, 0, 0, 0, 0, 0, 0, 1, 0, 0, 0, 0, 0],
   [0, 0, 1, 0, 0, 0, 0, 0, 0, 1, 0, 0, 0, 0],
   [0, 0, 0, 1, 0, 0, 0, 0, 0, 0, 1, 0, 0, 0],
   [1, 0, 0, 0, 0, 0, 0, 0, 1, 0, 0, 0, 0, 0],
   [0, 0, 0, 0, 0, 0, 0, 0, 0, 0, 0, 0, 0, 0],
   [0, 0, 0, 0, 0, 0, 0, 0, 0, 0, 0, 0, 0, 0],
   [0, 0, 0, 0, 0, 0, 0, 0, 0, 0, 0, 0, 0, 0],
   [1, 0, 0, 0, 0, 0, 0, 0, 0, 1, 0, 0, 0, 0],
   [0, 0, 0, 0, 0, 0, 0, 0, 0, 0, 0, 0, 0, 0],
   [0, 0, 0, 0, 0, 0, 0, 0, 0, 0, 0, 0, 0, 0],
   [0, 0, 0, 0, 0, 0, 0, 0, 0, 0, 0, 0, 0, 0],
   [1, 0, 0, 0, 0, 0, 0, 0, 0, 0, 1, 0, 0, 0],
   [0, 1, 0, 0, 0, 0, 0, 0, 0, 0, 0, 1, 0, 0],
   [0, 0, 1, 0, 0, 0, 0, 0, 0, 0, 0, 0, 1, 0],
   [0, 0, 0, 1, 0, 0, 0, 0, 0, 0, 0, 0, 0, 1],
   [1, 0, 0, 0, 0, 0, 0, 0, 0, 0, 0, 1, 0, 0],
   [0, 0, 0, 0, 0, 0, 0, 0, 0, 0, 0, 0, 0, 0],
   [0, 0, 0, 0, 0, 0, 0, 0, 0, 0, 0, 0, 0, 0],
   [0, 0, 0, 0, 0, 0, 0, 0, 0, 0, 0, 0, 0, 0],
   [1, 0, 0, 0, 0, 0, 0, 0, 0, 0, 0, 0, 1, 0],
   [0, 0, 0, 0, 0, 0, 0, 0, 0, 0, 0, 0, 0, 0],
   [0, 0, 0, 0, 0, 0, 0, 0, 0, 0, 0, 0, 0, 0],
   [0, 0, 0, 0, 0, 0, 0, 0, 0, 0, 0, 0, 0, 0],
   [1, 0, 0, 0, 0, 0, 0, 0, 0, 0, 0, 0, 0, 1],
   [0, 0, 0, 0, 0, 0, 0, 0, 0, 0, 0, 0, 0, 0],
   [0, 0, 0, 0, 0, 0, 0, 0, 0, 0, 0, 0, 0, 0],
   [0, 0, 0, 0, 0, 0, 0, 0, 0, 0, 0, 0, 0, 0]]

/-- Concrete BFS data for the chain-graph scenario. -/
def c6F3 : LMat :=
  [[0, 0, 0, 0, 0, 0, 0, 0, 0, 0, 0, 0, 0, 0],
   [0, 0, 0, 0, 0, 0, 0, 0, 0, 0, 0, 0, 0, 0],
   [0, 0, 0, 0, 0, 0, 0, 0, 0, 0, 0, 0, 0, 0],
   [0, 0, 0, 1, 0, 0, 0, 1, 0, 0, 0, 0, 0, 0],
   [0, 0, 0, 0, 0, 0, 0, 0, 0, 0, 0, 0, 0, 0],
   [0, 0, 0, 0, 0, 0, 0, 0, 0, 0, 0, 0, 0, 0],
   [0, 0, 0, 0, 0, 0, 0, 0, 0, 0, 0, 0, 0, 0],
   [0, 0, 0, 0, 0, 0, 0, 0, 0, 0, 0, 0, 0, 0],
   [0, 0, 0, 0, 0, 0, 0, 0, 0, 0, 0, 0, 0, 0],
   [0, 0, 0, 0, 0, 0, 0, 0, 0, 0, 0, 0, 0, 0],
   [0, 0, 0, 0, 0, 0, 0, 0, 0, 0, 0, 0, 0, 0],
   [0, 0, 0, 0, 0, 0, 0, 0, 0, 0, 0, 0, 0, 0],
   [0, 0, 0, 0, 0, 0, 0, 0, 0, 0, 0, 0, 0, 0],
   [0, 0, 0, 0, 0, 0, 0, 0, 0, 0, 0, 0, 0, 0],
   [0, 0, 0, 0, 0, 0, 0, 0, 0, 0, 0, 0, 0, 0],
   [0, 0, 0, 1, 0, 0, 0, 0, 0, 0, 1, 0, 0, 0],
   [0, 0, 0, 0, 0, 0, 0, 0, 0, 0, 0, 0, 0, 0],
   [0, 0, 0, 0, 0, 0, 0, 0, 0, 0, 0, 0, 0, 0],
   [0, 0, 0, 0, 0, 0, 0, 0, 0, 0, 0, 0, 0, 0],
   [0, 0, 0, 0, 0, 0, 0, 0, 0, 0, 0, 0, 0, 0],
   [0, 0, 0, 0, 0, 0, 0, 0, 0, 0, 0, 0, 0, 0],
   [0, 0, 0, 0, 0, 0, 0, 0, 0, 0, 0, 0, 0, 0],
   [0, 0, 0, 0, 0, 0, 0, 0, 0, 0, 0, 0, 0, 0],
   [0, 0, 0, 0, 0, 0, 0, 0, 0, 0, 0, 0, 0, 0],
   [0, 0, 0, 0, 0, 0, 0, 0, 0, 0, 0, 0, 0, 0],
   [0, 0, 0, 0, 0, 0, 0, 0, 0, 0, 0, 0, 0, 0],
   [0, 0, 0, 0, 0, 0, 0, 0, 0, 0, 0, 0, 0, 0],
   [0, 0, 0, 1, 0, 0, 0, 0, 0, 0, 0, 0, 0, 1],
   [0, 0, 0, 0, 0, 0, 0, 0, 0, 0, 0, 0, 0, 0],
   [0, 0, 0, 0, 0, 0, 0, 0, 0, 0, 0, 0, 0, 0],
   [0, 0, 0, 0, 0, 0, 0, 0, 0, 0, 0, 0, 0, 0],
   [0, 0, 0, 0, 0, 0, 0, 0, 0, 0, 0, 0, 0, 0],
   [0, 0, 0, 0, 0, 0, 0, 0, 0, 0, 0, 0, 0, 0],
   [0, 0, 0, 0, 0, 0, 0, 0, 0, 0, 0, 0, 0, 0],
   [0, 0, 0, 0, 0, 0, 0, 0, 0, 0, 0, 0, 0, 0],
   [0, 0, 0, 0, 0, 0, 0, 0, 0, 0, 0, 0, 0, 0],
   [0, 0, 0, 0, 0, 0, 0, 0, 0, 0, 0, 0, 0, 0],
   [0, 0, 0, 0, 0, 0, 0, 0, 0, 0, 0, 0, 0, 0],
   [0, 0, 0, 0, 0, 0, 0, 0, 0, 0, 0, 0, 0, 0],
   [0, 0, 0, 0, 0, 0, 0, 0, 0, 0, 0, 0, 0, 0]]

/-- Concrete BFS data for the chain-graph scenario. -/
def c6V4 : LMat :=
  [[1, 0, 0, 0, 1, 0, 0, 0, 0, 0, 0, 0, 0, 0],
   [0, 1, 0, 0, 0, 1, 0, 0, 0, 0, 0, 0, 0, 0],
   [0, 0, 1, 0, 0, 0, 1, 0, 0, 0, 0, 0, 0, 0],
   [0, 0, 0, 1, 0, 0, 0, 1, 0, 0, 0, 0, 0, 0],
   [1, 0, 0, 0, 0, 1, 0, 0, 0, 0, 0, 0, 0, 0],
   [0, 0, 0, 0, 0, 0, 0, 0, 0, 0, 0, 0, 0, 0],
   [0, 0, 0, 0, 0, 0, 0, 0, 0, 0, 0, 0, 0, 0],
   [0, 0, 0, 0, 0, 0, 0, 0, 0, 0, 0, 0, 0, 0],
   [1, 0, 0, 0, 0, 0, 1, 0, 0, 0, 0, 0, 0, 0],
   [0, 0, 0, 0, 0, 0, 0, 0, 0, 0, 0, 0, 0, 0],
   [0, 0, 0, 0, 0, 0, 0, 0, 0, 0, 0, 0, 0, 0],
   [0, 0, 0, 0, 0, 0, 0, 0, 0, 0, 0, 0, 0, 0],
   [1, 0, 0, 0, 0, 0, 0, 1, 0, 0, 0, 0, 0, 0],
   [0, 1, 0, 0, 0, 0, 0, 0, 1, 0, 0, 0, 0, 0],
   [0, 0, 1, 0, 0, 0, 0, 0, 0, 1, 0, 0, 0, 0],
   [0, 0, 0, 1, 0, 0, 0, 0, 0, 0, 1, 0, 0, 0],
   [1, 0, 0, 0, 0, 0, 0, 0, 1, 0, 0, 0, 0, 0],
   [0, 0, 0, 0, 0, 0, 0, 0, 0, 0, 0, 0, 0, 0],
   [0, 0, 0, 0, 0, 0, 0, 0, 0, 0, 0, 0, 0, 0],
   [0, 0, 0, 0, 0, 0, 0, 0, 0, 0, 0, 0, 0, 0],
   [1, 0, 0, 0, 0, 0, 0, 0, 0, 1, 0, 0, 0, 0],
   [0, 0, 0, 0, 0, 0, 0, 0, 0, 0, 0, 0, 0, 0],
   [0, 0, 0, 0, 0, 0, 0, 0, 0, 0, 0, 0, 0, 0],
   [0, 0, 0, 0, 0, 0, 0, 0, 0, 0, 0, 0, 0, 0],
   [1, 0, 0, 0, 0, 0, 0, 0, 0, 0, 1, 0, 0, 0],
   [0, 1, 0, 0, 0, 0, 0, 0, 0, 0, 0, 1, 0, 0],
   [0, 0, 1, 0, 0, 0, 0, 0, 0, 0, 0, 0, 1, 0],
   [0, 0, 0, 1, 0, 0, 0, 0, 0, 0, 0, 0, 0, 1],
   [1, 0, 0, 0, 0, 0, 0, 0, 0, 0, 0, 1, 0, 0],
   [0, 0, 0, 0, 0, 0, 0, 0, 0, 0, 0, 0, 0, 0],
   [0, 0, 0, 0, 0, 0, 0, 0, 0, 0, 0, 0, 0, 0],
   [0, 0, 0, 0, 0, 0, 0, 0, 0, 0, 0, 0, 0, 0],
   [1, 0, 0, 0, 0, 0, 0, 0, 0, 0, 0, 0, 1, 0],
   [0, 0, 0, 0, 0, 0, 0, 0, 0, 0, 0, 0, 0, 0],
   [0, 0, 0, 0, 0, 0, 0, 0, 0, 0, 0, 0, 0, 0],
   [0, 0, 0, 0, 0, 0, 0, 0, 0, 0, 0, 0, 0, 0],
   [1, 0, 0, 0, 0, 0, 0, 0, 0, 0, 0, 0, 0, 1],
   [0, 0, 0, 0, 0, 0, 0, 0, 0, 0, 0, 0, 0, 0],
   [0, 0, 0, 0, 0, 0, 0, 0, 0, 0, 0, 0, 0, 0],
   [0, 0, 0, 0, 0, 0, 0, 0, 0, 0, 0, 0, 0, 0]]

/-- Concrete BFS data for the chain-graph scenario. -/
def c6F4 : LMat :=
  [[0, 0, 0, 0, 0, 0, 0, 0, 0, 0, 0, 0, 0, 0],
   [0, 0, 0, 0, 0, 0, 0, 0, 0, 0, 0, 0, 0, 0],
   [0, 0, 0, 0, 0, 0, 0, 0, 0, 0, 0, 0, 0, 0],
   [0, 0, 0, 0, 0, 0, 0, 0, 0, 0, 0, 0, 0, 0],
   [0, 0, 0, 0, 0, 0, 0, 0, 0, 0, 0, 0, 0, 0],
   [0, 0, 0, 0, 0, 0, 0, 0, 0, 0, 0, 0, 0, 0],
   [0, 0, 0, 0, 0, 0, 0, 0, 0, 0, 0, 0, 0, 0],
   [0, 0, 0, 0, 0, 0, 0, 0, 0, 0, 0, 0, 0, 0],
   [0, 0, 0, 0, 0, 0, 0, 0, 0, 0, 0, 0, 0, 0],
   [0, 0, 0, 0, 0, 0, 0, 0, 0, 0, 0, 0, 0, 0],
   [0, 0, 0, 0, 0, 0, 0, 0, 0, 0, 0, 0, 0, 0],
   [0, 0, 0, 0, 0, 0, 0, 0, 0, 0, 0, 0, 0, 0],
   [0, 0, 0, 0, 0, 0, 0, 0, 0, 0, 0, 0, 0, 0],
   [0, 0, 0, 0, 0, 0, 0, 0, 0, 0, 0, 0, 0, 0],
   [0, 0, 0, 0, 0, 0, 0, 0, 0, 0, 0, 0, 0, 0],
   [0, 0, 0, 0, 0, 0, 0, 0, 0, 0, 0, 0, 0, 0],
   [0, 0, 0, 0, 0, 0, 0, 0, 0, 0, 0, 0, 0, 0],
   [0, 0, 0, 0, 0, 0, 0, 0, 0, 0, 0, 0, 0, 0],
   [0, 0, 0, 0, 0, 0, 0, 0, 0, 0, 0, 0, 0, 0],
   [0, 0, 0, 0, 0, 0, 0, 0, 0, 0, 0, 0, 0, 0],
   [0, 0, 0, 0, 0, 0, 0, 0, 0, 0, 0, 0, 0, 0],
   [0, 0, 0, 0, 0, 0, 0, 0, 0, 0, 0, 0, 0, 0],
   [0, 0, 0, 0, 0, 0, 0, 0, 0, 0, 0, 0, 0, 0],
   [0, 0, 0, 0, 0, 0, 0, 0, 0, 0, 0, 0, 0, 0],
   [0, 0, 0, 0, 0, 0, 0, 0, 0, 0, 0, 0, 0, 0],
   [0, 0, 0, 0, 0, 0, 0, 0, 0, 0, 0, 0, 0, 0],
   [0, 0, 0, 0, 0, 0, 0, 0, 0, 0, 0, 0, 0, 0],
   [0, 0, 0, 0, 0, 0, 0, 0, 0, 0, 0, 0, 0, 0],
   [0, 0, 0, 0, 0, 0, 0, 0, 0, 0, 0, 0, 0, 0],
   [0, 0, 0, 0, 0, 0, 0, 0, 0, 0, 0, 0, 0, 0],
   [0, 0, 0, 0, 0, 0, 0, 0, 0, 0, 0, 0, 0, 0],
   [0, 0, 0, 0, 0, 0, 0, 0, 0, 0, 0, 0, 0, 0],
   [0, 0, 0, 0, 0, 0, 0, 0, 0, 0, 0, 0, 0, 0],
   [0, 0, 0, 0, 0, 0, 0, 0, 0, 0, 0, 0, 0, 0],
   [0, 0, 0, 0, 0, 0, 0, 0, 0, 0, 0, 0, 0, 0],
   [0, 0, 0, 0, 0, 0, 0, 0, 0, 0, 0, 0, 0, 0],
   [0, 0, 0, 0, 0, 0, 0, 0, 0, 0, 0, 0, 0, 0],
   [0, 0, 0, 0, 0, 0, 0, 0, 0, 0, 0, 0, 0, 0],
   [0, 0, 0, 0, 0, 0, 0, 0, 0, 0, 0, 0, 0, 0],
   [0, 0, 0, 0, 0, 0, 0, 0, 0, 0, 0, 0, 0, 0]]

/-! ### General lemmas about the transitive-closure iteration -/

theorem SpMat.patt_subset_range (A : SpMat) :
    A.patt ⊆ Finset.range A.dim ×ˢ Finset.range A.dim :=
  Finset.filter_subset _ _

theorem SpMat.nnz_le (A : SpMat) : A.nnz ≤ A.dim * A.dim := by
  calc A.patt.card ≤ (Finset.range A.dim ×ˢ Finset.range A.dim).card :=
        Finset.card_le_card A.patt_subset_range
    _ = A.dim * A.dim := by simp

theorem SpMat.mem_patt {A : SpMat} {i j : Nat} :
    (i, j) ∈ A.patt ↔ i < A.dim ∧ j < A.dim ∧ A.entry i j ≠ 0 := by
  simp [SpMat.patt, and_assoc]

theorem SpMat.patt_add (A B : SpMat) (h : B.dim = A.dim) :
    (A.add B).patt = A.patt ∪ B.patt := by
  ext ⟨i, j⟩
  simp only [SpMat.mem_patt, SpMat.add, Finset.mem_union, h]
  omega

theorem SpMat.mem_patt_mul {A B : SpMat} {i j : Nat} :
    (i, j) ∈ (A.mul B).patt ↔
      i < A.dim ∧ j < A.dim ∧
        ∃ k, k < A.dim ∧ A.entry i k ≠ 0 ∧ B.entry k j ≠ 0 := by
  have hsum : (∑ k ∈ Finset.range A.dim, A.entry i k * B.entry k j) ≠ 0 ↔
      ∃ k, k < A.dim ∧ A.entry i k ≠ 0 ∧ B.entry k j ≠ 0 := by
    rw [Ne, Finset.sum_eq_zero_iff]
    push_neg
    constructor
    · rintro ⟨k, hk, hne⟩
      exact ⟨k, Finset.mem_range.mp hk,
        (Nat.mul_ne_zero_iff.mp hne).1, (Nat.mul_ne_zero_iff.mp hne).2⟩
    · rintro ⟨k, hk, ha, hb⟩
      exact ⟨k, Finset.mem_range.mpr hk, Nat.mul_ne_zero ha hb⟩
  simp only [SpMat.mem_patt, SpMat.mul, hsum]

theorem SpMat.patt_congr {A B : SpMat} (hdim : A.dim = B.dim)
    (hent : ∀ i j, A.entry i j = B.entry i j) : A.patt = B.patt := by
  unfold SpMat.patt
  rw [hdim]
  exact Finset.filter_congr fun p _ => by rw [hent p.1 p.2]

/-- Transitivity of the nonzero pattern of a matrix, with the
intermediate index inside the dimension (which pattern membership
guarantees). -/
def TransPatt (A : SpMat) : Prop :=
  ∀ i j k, (i, j) ∈ A.patt → (j, k) ∈ A.patt → (i, k) ∈ A.patt

theorem tcLoop_dim (fuel : Nat) (m : SpMat) : (tcLoop fuel m).dim = m.dim := by
  induction fuel generalizing m with
  | zero => rfl
  | succ fuel ih =>
    unfold tcLoop
    dsimp only
    split
    · rfl
    · exact ih _

theorem patt_step (m : SpMat) :
    (m.add (m.mul m)).patt = m.patt ∪ (m.mul m).patt :=
  SpMat.patt_add m (m.mul m) rfl

theorem transPatt_of_stable {m : SpMat}
    (h : (m.add (m.mul m)).nnz = m.nnz) : TransPatt (m.add (m.mul m)) := by
  have hsub : m.patt ⊆ (m.add (m.mul m)).patt := by
    rw [patt_step]; exact Finset.subset_union_left
  have heq : m.patt = (m.add (m.mul m)).patt :=
    Finset.eq_of_subset_of_card_le hsub (le_of_eq h)
  intro i j k hij hjk
  rw [← heq] at hij hjk
  rw [patt_step]
  refine Finset.mem_union_right _ ?_
  rcases SpMat.mem_patt.mp hij with ⟨hi, hj, hije⟩
  rcases SpMat.mem_patt.mp hjk with ⟨_, hk, hjke⟩
  exact SpMat.mem_patt_mul.mpr ⟨hi, hk, j, hj, hije, hjke⟩

theorem tcLoop_trans (fuel : Nat) (m : SpMat)
    (hfuel : m.dim * m.dim + 1 ≤ fuel + m.nnz) : TransPatt (tcLoop fuel m) := by
  induction fuel generalizing m with
  | zero =>
    have := m.nnz_le
    omega
  | succ fuel ih =>
    unfold tcLoop
    dsimp only
    split
    · exact transPatt_of_stable (by assumption)
    · rename_i hne
      refine ih _ ?_
      have hsub : m.patt ⊆ (m.add (m.mul m)).patt := by
        rw [patt_step]; exact Finset.subset_union_left
      have hlt : m.nnz < (m.add (m.mul m)).nnz := by
        refine Finset.card_lt_card (Finset.ssubset_iff_subset_ne.mpr ⟨hsub, ?_⟩)
        intro hpe
        exact hne (by rw [SpMat.nnz, SpMat.nnz, hpe])
      have hdim : (m.add (m.mul m)).dim = m.dim := rfl
      rw [hdim]
      omega

theorem getTransitiveClosure_trans {σ L : Type} (b : BooleanMatrix σ L) :
    TransPatt (getTransitiveClosure b) := by
  unfold getTransitiveClosure
  dsimp only
  split
  · rename_i hz
    intro i j k hij _
    have : (gtcSum b).patt = ∅ := Finset.card_eq_zero.mp hz
    rw [this] at hij
    exact absurd hij (Finset.not_mem_empty _)
  · exact tcLoop_trans _ _ (by omega)

theorem foldl_add_dim (l : List SpMat) (acc : SpMat) :
    (l.foldl SpMat.add acc).dim = acc.dim := by
  induction l generalizing acc with
  | nil => rfl
  | cons hd tl ih => exact ih _

theorem gtcSum_dim {σ L : Type} (b : BooleanMatrix σ L) :
    (gtcSum b).dim = b.stateToIndex.length :=
  foldl_add_dim _ _

theorem getTransitiveClosure_dim {σ L : Type} (b : BooleanMatrix σ L) :
    (getTransitiveClosure b).dim = b.stateToIndex.length := by
  unfold getTransitiveClosure
  dsimp only
  split
  · exact gtcSum_dim b
  · rw [tcLoop_dim, gtcSum_dim]

theorem gtcSum_repack {σ L : Type} (b : BooleanMatrix σ L) (l : L) (m : SpMat) :
    gtcSum (repack b l m) = (SpMat.zero b.stateToIndex.length).add m :=
  rfl

theorem tcLoop_stable_eq (fuel : Nat) (m : SpMat)
    (h : (m.add (m.mul m)).nnz = m.nnz) :
    tcLoop (fuel + 1) m = m.add (m.mul m) := by
  unfold tcLoop
  dsimp only
  rw [if_pos h]

/-- The one-step pattern of a matrix with a transitive pattern is
unchanged: `patt (m + m·m) = patt m`. -/
theorem patt_step_of_trans {m : SpMat} (h : TransPatt m) :
    (m.add (m.mul m)).patt = m.patt := by
  rw [patt_step]
  refine Finset.union_eq_left.mpr ?_
  intro p hp
  rcases p with ⟨i, k⟩
  rcases SpMat.mem_patt_mul.mp hp with ⟨hi, hk, j, hj, he1, he2⟩
  exact h i j k (SpMat.mem_patt.mpr ⟨hi, hj, he1⟩) (SpMat.mem_patt.mpr ⟨hj, hk, he2⟩)

/-- The nonzero pattern of a matrix as a binary relation. -/
def pattRel (A : SpMat) : Nat → Nat → Prop := fun i j => (i, j) ∈ A.patt

theorem tcLoop_patt_lower (fuel : Nat) (m : SpMat) :
    m.patt ⊆ (tcLoop fuel m).patt := by
  induction fuel generalizing m with
  | zero => exact fun p hp => hp
  | succ fuel ih =>
    unfold tcLoop
    dsimp only
    split
    · rw [patt_step]
      exact Finset.subset_union_left
    · refine fun p hp => ih _ ?_
      rw [patt_step]
      exact Finset.mem_union_left _ hp

theorem tcLoop_patt_upper (fuel : Nat) (m : SpMat) (R : Nat → Nat → Prop)
    (hR : ∀ p ∈ m.patt, Relation.TransGen R p.1 p.2) :
    ∀ p ∈ (tcLoop fuel m).patt, Relation.TransGen R p.1 p.2 := by
  induction fuel generalizing m with
  | zero => exact hR
  | succ fuel ih =>
    have hstep : ∀ p ∈ (m.add (m.mul m)).patt, Relation.TransGen R p.1 p.2 := by
      intro p hp
      rw [patt_step] at hp
      rcases Finset.mem_union.mp hp with h | h
      · exact hR p h
      · rcases SpMat.mem_patt_mul.mp h with ⟨hi, hj, k, hk, h1, h2⟩
        exact Relation.TransGen.trans
          (hR (p.1, k) (SpMat.mem_patt.mpr ⟨hi, hk, h1⟩))
          (hR (k, p.2) (SpMat.mem_patt.mpr ⟨hk, hj, h2⟩))
    unfold tcLoop
    dsimp only
    split
    · exact hstep
    · exact ih _ hstep

/-- The nonzero pattern of `get_transitive_closure` is exactly the
transitive closure (paths of length at least one) of the pattern of the
summed per-symbol matrix. -/
theorem gtc_patt_iff {σ L : Type} (b : BooleanMatrix σ L) (i j : Nat) :
    (i, j) ∈ (getTransitiveClosure b).patt ↔
      Relation.TransGen (pattRel (gtcSum b)) i j := by
  constructor
  · intro h
    unfold getTransitiveClosure at h
    dsimp only at h
    split at h
    · rename_i hz
      have : (gtcSum b).patt = ∅ := Finset.card_eq_zero.mp hz
      rw [this] at h
      exact absurd h (Finset.not_mem_empty _)
    · exact tcLoop_patt_upper _ _ (pattRel (gtcSum b))
        (fun p hp => Relation.TransGen.single hp) (i, j) h
  · intro h
    have hbase : ∀ x y, pattRel (gtcSum b) x y →
        (x, y) ∈ (getTransitiveClosure b).patt := by
      intro x y hxy
      unfold getTransitiveClosure
      dsimp only
      split
      · rename_i hz
        have hpe : (gtcSum b).patt = ∅ := Finset.card_eq_zero.mp hz
        have hxy' : (x, y) ∈ (gtcSum b).patt := hxy
        rw [hpe] at hxy'
        exact absurd hxy' (Finset.not_mem_empty _)
      · exact tcLoop_patt_lower _ _ hxy
    induction h with
    | single hxy => exact hbase _ _ hxy
    | tail _ hxy ih =>
      exact getTransitiveClosure_trans b _ _ _ ih (hbase _ _ hxy)

/-! ### Association-list lemmas -/

theorem afind_cons {α β : Type} [DecidableEq α] (k : α) (v : β)
    (l : List (α × β)) (a : α) :
    afind ((k, v) :: l) a = if k = a then some v else afind l a := by
  by_cases h : k = a
  · simp [afind, List.find?, h]
  · simp [afind, List.find?, h]

theorem afind_mem_keys {α β : Type} [DecidableEq α] {l : List (α × β)}
    {a : α} {b : β} (h : afind l a = some b) : a ∈ akeys l := by
  induction l with
  | nil => simp [afind] at h
  | cons hd tl ih =>
    rcases hd with ⟨k, v⟩
    rw [afind_cons] at h
    by_cases hk : k = a
    · simp [akeys, hk]
    · rw [if_neg hk] at h
      simp only [akeys, List.map_cons, List.mem_cons]
      exact Or.inr (ih h)

theorem mem_akeys {α β : Type} {l : List (α × β)} {a : α} :
    a ∈ akeys l ↔ ∃ p ∈ l, p.1 = a := by
  unfold akeys
  exact List.mem_map

theorem afind_keyfun {α γ : Type} [DecidableEq α] (ks : List α) (g : α → γ)
    {s : α} (hs : s ∈ ks) :
    afind (ks.map fun l => (l, g l)) s = some (g s) := by
  induction ks with
  | nil => exact absurd hs (List.not_mem_nil s)
  | cons k tl ih =>
    rw [List.map_cons, afind_cons]
    by_cases hk : k = s
    · rw [if_pos hk, hk]
    · rw [if_neg hk]
      exact ih ((List.mem_cons.mp hs).resolve_left fun he => hk he.symm)

theorem afind_append {α β : Type} [DecidableEq α] (l₁ l₂ : List (α × β))
    (a : α) :
    afind (l₁ ++ l₂) a = ((afind l₁ a).rec (afind l₂ a) fun b => some b) := by
  induction l₁ with
  | nil => simp [afind]
  | cons hd tl ih =>
    rcases hd with ⟨k, v⟩
    rw [List.cons_append, afind_cons, afind_cons]
    by_cases hk : k = a
    · rw [if_pos hk, if_pos hk]
    · rw [if_neg hk, if_neg hk, ih]

theorem afind_pair_block {σ τ γ : Type} [DecidableEq σ] [DecidableEq τ]
    (a₀ : σ) (lB : List (τ × Nat)) (f : Nat → γ) (a : σ) (b : τ) :
    afind (lB.map fun q => ((a₀, q.1), f q.2)) (a, b) =
      if a₀ = a then (afind lB b).map f else none := by
  induction lB with
  | nil => by_cases h : a₀ = a <;> simp [afind, h]
  | cons hd tl ih =>
    rcases hd with ⟨b₀, j₀⟩
    rw [List.map_cons, afind_cons, afind_cons]
    by_cases ha : a₀ = a
    · by_cases hb : b₀ = b
      · simp [ha, hb]
      · have : ¬ ((a₀, b₀) = (a, b)) := by simp [hb]
        rw [if_neg this, if_neg hb, ih, if_pos ha]
    · have : ¬ ((a₀, b₀) = (a, b)) := by simp [ha]
      rw [if_neg this, ih, if_neg ha, if_neg ha]

theorem afind_interStateToIndex {σ τ L : Type} [DecidableEq σ] [DecidableEq τ]
    (A : BooleanMatrix σ L) (B : BooleanMatrix τ L) {a : σ} {b : τ}
    {ia ib : Nat} (hA : afind A.stateToIndex a = some ia)
    (hB : afind B.stateToIndex b = some ib) :
    afind (interStateToIndex A B) (a, b) =
      some (ia * B.stateToIndex.length + ib) := by
  unfold interStateToIndex
  generalize hL : A.stateToIndex = lA at hA
  clear hL
  induction lA with
  | nil => simp [afind] at hA
  | cons hd tl ih =>
    rcases hd with ⟨a₀, i₀⟩
    rw [afind_cons] at hA
    rw [List.flatMap_cons, afind_append, afind_pair_block]
    by_cases ha : a₀ = a
    · rw [if_pos ha, hB]
      rw [if_pos ha] at hA
      cases hA
      rfl
    · rw [if_neg ha] at hA
      rw [if_neg ha]
      exact ih hA

theorem mem_interStarts {σ τ L : Type} [DecidableEq σ] [DecidableEq τ]
    (A : BooleanMatrix σ L) (B : BooleanMatrix τ L)
    (hA : ∀ s ∈ A.startStates, s ∈ akeys A.stateToIndex)
    (hB : ∀ s ∈ B.startStates, s ∈ akeys B.stateToIndex) (a : σ) (b : τ) :
    (a, b) ∈ interStarts A B ↔ a ∈ A.startStates ∧ b ∈ B.startStates := by
  unfold interStarts
  rw [List.mem_flatMap]
  constructor
  · rintro ⟨p, _, hmem⟩
    rcases List.mem_filterMap.mp hmem with ⟨q, _, hq⟩
    by_cases h : p.1 ∈ A.startStates ∧ q.1 ∈ B.startStates
    · rw [if_pos h] at hq
      cases hq
      exact h
    · rw [if_neg h] at hq
      exact absurd hq (by simp)
  · rintro ⟨ha, hb⟩
    rcases mem_akeys.mp (hA a ha) with ⟨p, hp, hp1⟩
    rcases mem_akeys.mp (hB b hb) with ⟨q, hq, hq1⟩
    refine ⟨p, hp, List.mem_filterMap.mpr ⟨q, hq, ?_⟩⟩
    rw [if_pos (by rw [hp1, hq1]; exact ⟨ha, hb⟩), hp1, hq1]

theorem mem_interFinals {σ τ L : Type} [DecidableEq σ] [DecidableEq τ]
    (A : BooleanMatrix σ L) (B : BooleanMatrix τ L)
    (hA : ∀ s ∈ A.finalStates, s ∈ akeys A.stateToIndex)
    (hB : ∀ s ∈ B.finalStates, s ∈ akeys B.stateToIndex) (a : σ) (b : τ) :
    (a, b) ∈ interFinals A B ↔ a ∈ A.finalStates ∧ b ∈ B.finalStates := by
  unfold interFinals
  rw [List.mem_flatMap]
  constructor
  · rintro ⟨p, _, hmem⟩
    rcases List.mem_filterMap.mp hmem with ⟨q, _, hq⟩
    by_cases h : p.1 ∈ A.finalStates ∧ q.1 ∈ B.finalStates
    · rw [if_pos h] at hq
      cases hq
      exact h
    · rw [if_neg h] at hq
      exact absurd hq (by simp)
  · rintro ⟨ha, hb⟩
    rcases mem_akeys.mp (hA a ha) with ⟨p, hp, hp1⟩
    rcases mem_akeys.mp (hB b hb) with ⟨q, hq, hq1⟩
    refine ⟨p, hp, List.mem_filterMap.mpr ⟨q, hq, ?_⟩⟩
    rw [if_pos (by rw [hp1, hq1]; exact ⟨ha, hb⟩), hp1, hq1]

theorem kron_entry_formula (MA MB : SpMat) {i j r c : Nat}
    (hr : r < MB.dim) (hc : c < MB.dim) :
    (SpMat.kron MA MB).entry (i * MB.dim + r) (j * MB.dim + c) =
      MA.entry i j * MB.entry r c := by
  have hd : 0 < MB.dim := lt_of_le_of_lt (Nat.zero_le r) hr
  unfold SpMat.kron
  dsimp only
  rw [Nat.mul_comm i MB.dim, Nat.mul_comm j MB.dim]
  rw [Nat.mul_add_div hd, Nat.mul_add_div hd, Nat.mul_add_mod, Nat.mul_add_mod]
  rw [Nat.div_eq_of_lt hr, Nat.div_eq_of_lt hc,
    Nat.mod_eq_of_lt hr, Nat.mod_eq_of_lt hc]
  rw [Nat.add_zero, Nat.add_zero]

/-! ### Lemmas about the `cfpq` filter and the solvers' triple sets -/

theorem cfpqEffective_none {V : Type} (nodes : List V) :
    cfpqEffective nodes none = nodes :=
  rfl

theorem cfpqEffective_some {V : Type} (nodes : List V) {S : List V}
    (hS : S ≠ []) : cfpqEffective nodes (some S) = S := by
  cases S with
  | nil => exact absurd rfl hS
  | cons v l => rfl

theorem mem_cfpqOn {V NT : Type} [DecidableEq V] [DecidableEq NT]
    {triples : List (V × NT × V)} {nodes : List V}
    {sN fN : Option (List V)} {sym : NT} {u v : V} :
    (u, v) ∈ cfpqOn triples nodes sN fN sym ↔
      ∃ t ∈ triples, t.2.1 = sym ∧ t.1 ∈ cfpqEffective nodes sN ∧
        t.2.2 ∈ cfpqEffective nodes fN ∧ t.1 = u ∧ t.2.2 = v := by
  unfold cfpqOn
  rw [List.mem_toFinset, List.mem_map]
  constructor
  · rintro ⟨t, ht, hv⟩
    rcases List.mem_filter.mp ht with ⟨htm, hcond⟩
    simp only [Bool.and_eq_true, decide_eq_true_eq] at hcond
    exact ⟨t, htm, hcond.1.1, hcond.1.2, hcond.2,
      congrArg Prod.fst hv, congrArg Prod.snd hv⟩
  · rintro ⟨t, htm, hsym, hS, hF, hu, hv⟩
    refine ⟨t, List.mem_filter.mpr ⟨htm, ?_⟩, by rw [hu, hv]⟩
    simp only [Bool.and_eq_true, decide_eq_true_eq]
    exact ⟨⟨hsym, hS⟩, hF⟩

/-- The generic source/sink filtering property of the `cfpq` entry
point: for any algorithm triple set whose endpoints are graph nodes and
any nonempty `S`, `F`, the restricted result is exactly the unrestricted
result intersected with `S × F`. -/
theorem cfpqOn_restrict {V NT : Type} [DecidableEq V] [DecidableEq NT]
    (triples : List (V × NT × V)) (nodes : List V)
    (hend : ∀ t ∈ triples, t.1 ∈ nodes ∧ t.2.2 ∈ nodes)
    {S F : List V} (hS : S ≠ []) (hF : F ≠ []) (sym : NT) :
    cfpqOn triples nodes (some S) (some F) sym =
      cfpqOn triples nodes none none sym ∩ (S.toFinset ×ˢ F.toFinset) := by
  ext ⟨u, v⟩
  rw [Finset.mem_inter, mem_cfpqOn, mem_cfpqOn, Finset.mem_product,
    List.mem_toFinset, List.mem_toFinset]
  rw [cfpqEffective_some nodes hS, cfpqEffective_some nodes hF,
    cfpqEffective_none]
  constructor
  · rintro ⟨t, htm, hsym, hSm, hFm, rfl, rfl⟩
    exact ⟨⟨t, htm, hsym, (hend t htm).1, (hend t htm).2, rfl, rfl⟩,
      hSm, hFm⟩
  · rintro ⟨⟨t, htm, hsym, _, _, rfl, rfl⟩, hSm, hFm⟩
    exact ⟨t, htm, hsym, hSm, hFm, rfl, rfl⟩

theorem hellingsSeed_endpoints {V NT : Type} [DecidableEq V]
    {g : LGraph V} (hedges : ∀ e ∈ g.edges, e.1 ∈ g.nodes ∧ e.2.2 ∈ g.nodes)
    {eps : List NT} {termP : List (NT × String)} :
    ∀ t ∈ hellingsSeed g eps termP, t.1 ∈ g.nodes ∧ t.2.2 ∈ g.nodes := by
  intro t ht
  rcases List.mem_append.mp ht with h | h
  · rcases List.mem_flatMap.mp h with ⟨i, hi, hm⟩
    rcases List.mem_map.mp hm with ⟨n, _, rfl⟩
    exact ⟨hi, hi⟩
  · rcases List.mem_flatMap.mp h with ⟨e, he, hm⟩
    rcases List.mem_filterMap.mp hm with ⟨p, _, hp⟩
    by_cases hc : e.2.1 = some p.2
    · rw [if_pos hc] at hp
      cases hp
      exact hedges e he
    · rw [if_neg hc] at hp
      exact absurd hp (by simp)

theorem hellingsPopNew_endpoints {V NT : Type} [DecidableEq V]
    [DecidableEq NT] {ns : List V} (twoP : List (NT × NT × NT))
    {result : List (V × NT × V)} {t : V × NT × V}
    (hres : ∀ s ∈ result, s.1 ∈ ns ∧ s.2.2 ∈ ns)
    (ht : t.1 ∈ ns ∧ t.2.2 ∈ ns) :
    ∀ x ∈ hellingsPopNew twoP result t, x.1 ∈ ns ∧ x.2.2 ∈ ns := by
  intro x hx
  rcases List.mem_flatMap.mp hx with ⟨s, hs, hm⟩
  rcases List.mem_append.mp hm with h | h
  · by_cases hc : s.2.2 = t.1
    · rw [if_pos hc] at h
      rcases List.mem_filterMap.mp h with ⟨p, _, hp⟩
      by_cases hcc : p.2.1 = s.2.1 ∧ p.2.2 = t.2.1 ∧ (s.1, p.1, t.2.2) ∉ result
      · rw [if_pos hcc] at hp
        cases hp
        exact ⟨(hres s hs).1, ht.2⟩
      · rw [if_neg hcc] at hp
        exact absurd hp (by simp)
    · rw [if_neg hc] at h
      exact absurd h (List.not_mem_nil x)
  · by_cases hc : t.2.2 = s.1
    · rw [if_pos hc] at h
      rcases List.mem_filterMap.mp h with ⟨p, _, hp⟩
      by_cases hcc : p.2.1 = t.2.1 ∧ p.2.2 = s.2.1 ∧ (t.1, p.1, s.2.2) ∉ result
      · rw [if_pos hcc] at hp
        cases hp
        exact ⟨ht.1, (hres s hs).2⟩
      · rw [if_neg hcc] at hp
        exact absurd hp (by simp)
    · rw [if_neg hc] at h
      exact absurd h (List.not_mem_nil x)

theorem hellingsLoop_endpoints {V NT : Type} [DecidableEq V] [DecidableEq NT]
    {ns : List V} (twoP : List (NT × NT × NT)) :
    ∀ (fuel : Nat) (queue result : List (V × NT × V)),
      (∀ t ∈ queue, t.1 ∈ ns ∧ t.2.2 ∈ ns) →
      (∀ t ∈ result, t.1 ∈ ns ∧ t.2.2 ∈ ns) →
      ∀ t ∈ hellingsLoop twoP fuel queue result, t.1 ∈ ns ∧ t.2.2 ∈ ns := by
  intro fuel
  induction fuel with
  | zero => exact fun _ _ _ hr => hr
  | succ fuel ih =>
    intro queue result hq hr
    cases queue with
    | nil => exact hr
    | cons t rest =>
      have hnews := hellingsPopNew_endpoints twoP hr (hq t (by simp))
      refine ih _ _ ?_ ?_
      · intro x hx
        rcases List.mem_append.mp hx with h | h
        · exact hq x (List.mem_cons_of_mem _ h)
        · exact hnews x h
      · intro x hx
        rcases List.mem_append.mp hx with h | h
        · exact hr x h
        · exact hnews x (List.mem_dedup.mp h)

theorem runHellings_endpoints {V NT : Type} [DecidableEq V] [DecidableEq NT]
    (prods : List (NT × Wbody NT)) (g : LGraph V)
    (hedges : ∀ e ∈ g.edges, e.1 ∈ g.nodes ∧ e.2.2 ∈ g.nodes) :
    ∀ t ∈ runHellings prods g, t.1 ∈ g.nodes ∧ t.2.2 ∈ g.nodes := by
  unfold runHellings
  split
  · intro t ht
    exact absurd ht (List.not_mem_nil t)
  · have hseed : ∀ t ∈ (hellingsSeed g (wcnfEps prods) (wcnfTerm prods)).dedup,
        t.1 ∈ g.nodes ∧ t.2.2 ∈ g.nodes :=
      fun t ht => hellingsSeed_endpoints hedges t (List.mem_dedup.mp ht)
    exact hellingsLoop_endpoints _ _ _ _ hseed hseed

/-- Row/column shape invariant of the per-nonterminal matrices. -/
def ShapeN (n : Nat) (mats : List (α × LMat)) : Prop :=
  ∀ p ∈ mats, p.2.length = n ∧ ∀ row ∈ p.2, row.length = n

theorem mem_zipWith {α β γ : Type} {f : α → β → γ} :
    ∀ {A : List α} {B : List β} {x : γ}, x ∈ List.zipWith f A B →
      ∃ a ∈ A, ∃ b ∈ B, x = f a b := by
  intro A
  induction A with
  | nil => intro B x hx; simp at hx
  | cons a tl ih =>
    intro B x hx
    cases B with
    | nil => simp at hx
    | cons b tlB =>
      rw [List.zipWith_cons_cons] at hx
      rcases List.mem_cons.mp hx with h | h
      · exact ⟨a, by simp, b, by simp, h⟩
      · rcases ih h with ⟨a', ha, b', hb, hx⟩
        exact ⟨a', List.mem_cons_of_mem _ ha, b', List.mem_cons_of_mem _ hb, hx⟩

theorem ladd_shape {n : Nat} {A B : LMat}
    (hA : A.length = n ∧ ∀ row ∈ A, row.length = n)
    (hB : B.length = n ∧ ∀ row ∈ B, row.length = n) :
    (ladd A B).length = n ∧ ∀ row ∈ ladd A B, row.length = n := by
  constructor
  · rw [ladd, List.length_zipWith, hA.1, hB.1, Nat.min_self]
  · intro row hrow
    rcases mem_zipWith hrow with ⟨ra, hra, rb, hrb, rfl⟩
    rw [List.length_zipWith, hA.2 ra hra, hB.2 rb hrb, Nat.min_self]

theorem lzero_shape (n : Nat) :
    (lzero n n).length = n ∧ ∀ row ∈ lzero n n, row.length = n := by
  constructor
  · simp [lzero]
  · intro row hrow
    rw [lzero] at hrow
    rw [List.eq_of_mem_replicate hrow]
    simp

theorem lmul_shape (n : Nat) (A B : LMat) :
    (lmul n A B).length = n ∧ ∀ row ∈ lmul n A B, row.length = n := by
  constructor
  · simp [lmul]
  · intro row hrow
    rcases List.mem_map.mp hrow with ⟨i, _, rfl⟩
    simp

theorem afind_mem {α β : Type} [DecidableEq α] {l : List (α × β)} {a : α}
    {b : β} (h : afind l a = some b) : (a, b) ∈ l := by
  induction l with
  | nil => simp [afind] at h
  | cons hd tl ih =>
    rcases hd with ⟨k, v⟩
    rw [afind_cons] at h
    by_cases hk : k = a
    · rw [if_pos hk] at h
      cases h
      rw [hk]
      exact List.mem_cons_self _ _
    · rw [if_neg hk] at h
      exact List.mem_cons_of_mem _ (ih h)

theorem afind_getD_shape {α : Type} [DecidableEq α] {n : Nat}
    {mats : List (α × LMat)} (hS : ShapeN n mats) (a : α) :
    ((afind mats a).getD (lzero n n)).length = n ∧
      ∀ row ∈ (afind mats a).getD (lzero n n), row.length = n := by
  cases hfind : afind mats a with
  | none => simpa using lzero_shape n
  | some M =>
    have := hS (a, M) (afind_mem hfind)
    simpa using this

theorem aset_shape {α : Type} [DecidableEq α] {n : Nat}
    {mats : List (α × LMat)} (hS : ShapeN n mats) (a : α) {M : LMat}
    (hM : M.length = n ∧ ∀ row ∈ M, row.length = n) :
    ShapeN n (aset mats a M) := by
  intro p hp
  rcases List.mem_map.mp hp with ⟨q, hq, hpq⟩
  by_cases hk : q.1 = a
  · rw [if_pos hk] at hpq
    rw [← hpq]
    exact hM
  · rw [if_neg hk] at hpq
    rw [← hpq]
    exact hS q hq

theorem prodSum_shape {NT : Type} [DecidableEq NT] {n : Nat}
    {mats : List (NT × LMat)} (_hS : ShapeN n mats)
    (bodies : List (NT × NT)) :
    ∀ acc, (acc.length = n ∧ ∀ row ∈ acc, row.length = n) →
      ((bodies.foldl
        (fun s bc => ladd s (lmul n ((afind mats bc.1).getD (lzero n n))
          ((afind mats bc.2).getD (lzero n n)))) acc).length = n ∧
        ∀ row ∈ bodies.foldl
          (fun s bc => ladd s (lmul n ((afind mats bc.1).getD (lzero n n))
            ((afind mats bc.2).getD (lzero n n)))) acc, row.length = n) := by
  induction bodies with
  | nil => exact fun acc h => h
  | cons bc tl ih =>
    intro acc hacc
    exact ih _ (ladd_shape hacc (lmul_shape n _ _))

theorem matrixSweep_shape {NT : Type} [DecidableEq NT] {n : Nat}
    (heads : List (NT × List (NT × NT))) :
    ∀ (mats : List (NT × LMat)) (b : Bool), ShapeN n mats →
      ShapeN n (heads.foldl
        (fun acc h =>
          let cur := (afind acc.1 h.1).getD (lzero n n)
          let prodSum := h.2.foldl
            (fun s bc => ladd s (lmul n ((afind acc.1 bc.1).getD (lzero n n))
              ((afind acc.1 bc.2).getD (lzero n n)))) (lzero n n)
          let new := ladd cur prodSum
          (aset acc.1 h.1 new, acc.2 || decide (lnnz cur ≠ lnnz new)))
        (mats, b)).1 := by
  induction heads with
  | nil => exact fun mats b h => h
  | cons hd tl ih =>
    intro mats b hS
    refine ih _ _ ?_
    exact aset_shape hS hd.1
      (ladd_shape (afind_getD_shape hS hd.1)
        (prodSum_shape hS hd.2 _ (lzero_shape n)))

theorem matrixSweep_shape' {NT : Type} [DecidableEq NT] {n : Nat}
    (heads : List (NT × List (NT × NT))) (mats : List (NT × LMat))
    (hS : ShapeN n mats) : ShapeN n (matrixSweep n heads mats).1 :=
  matrixSweep_shape heads mats false hS

theorem matrixLoop_shape {NT : Type} [DecidableEq NT] {n : Nat}
    (heads : List (NT × List (NT × NT))) :
    ∀ (fuel : Nat) (mats : List (NT × LMat)), ShapeN n mats →
      ShapeN n (matrixLoop n heads fuel mats) := by
  intro fuel
  induction fuel with
  | zero => exact fun mats h => h
  | succ fuel ih =>
    intro mats hS
    unfold matrixLoop
    dsimp only
    split
    · exact ih _ (matrixSweep_shape' heads mats hS)
    · exact matrixSweep_shape' heads mats hS

theorem matrixInit_shape {V NT : Type} [DecidableEq V] [DecidableEq NT]
    (g : LGraph V) (eps : List NT) (termP : List (NT × String)) (nt : NT) :
    (matrixInit g eps termP nt).length = g.nodes.length ∧
      ∀ row ∈ matrixInit g eps termP nt, row.length = g.nodes.length := by
  constructor
  · simp [matrixInit]
  · intro row hrow
    rcases List.mem_map.mp hrow with ⟨i, _, rfl⟩
    simp

theorem getD_mem_of_lt {α : Type} {l : List α} {i : Nat} (d : α)
    (h : i < l.length) : l.getD i d ∈ l := by
  rw [List.getD_eq_getElem l d h]
  exact List.getElem_mem h

theorem mem_nonzerosL {A : LMat} {p : Nat × Nat} (hp : p ∈ nonzerosL A) :
    p.1 < A.length ∧ p.2 < (A.getD p.1 []).length := by
  rcases List.mem_flatMap.mp hp with ⟨q, hq, hm⟩
  rcases List.mem_filterMap.mp hm with ⟨r, hr, hrp⟩
  have hq' := List.mem_enum_iff_getElem?.mp hq
  by_cases hc : r.2 ≠ 0
  · rw [if_pos hc] at hrp
    cases hrp
    have hr' := List.mem_enum_iff_getElem?.mp hr
    constructor
    · exact (List.getElem?_eq_some.mp hq').1
    · have : A.getD q.1 [] = q.2 := by
        rw [List.getD_eq_getElem?_getD, hq']
        rfl
      rw [this]
      exact (List.getElem?_eq_some.mp hr').1
  · rw [if_neg hc] at hrp
    exact absurd hrp (by simp)

theorem runMatrix_endpoints {V NT : Type} [DecidableEq V] [DecidableEq NT]
    [Inhabited V] (prods : List (NT × Wbody NT)) (g : LGraph V) :
    ∀ t ∈ runMatrix prods g, t.1 ∈ g.nodes ∧ t.2.2 ∈ g.nodes := by
  unfold runMatrix
  split
  · intro t ht
    exact absurd ht (List.not_mem_nil t)
  · intro t ht
    rcases List.mem_flatMap.mp ht with ⟨p, hp, hm⟩
    rcases List.mem_map.mp hm with ⟨q, hq, rfl⟩
    have hshape0 : ShapeN g.nodes.length ((wcnfVars prods).map fun nt =>
        (nt, matrixInit g (wcnfEps prods) (wcnfTerm prods) nt)) := by
      intro r hr
      rcases List.mem_map.mp hr with ⟨nt, _, rfl⟩
      exact matrixInit_shape g _ _ nt
    have hshape := matrixLoop_shape (wcnfTwoGrouped prods)
      ((wcnfVars prods).length * g.nodes.length * g.nodes.length + 1) _
      hshape0
    have hpshape := hshape p hp
    have hbound := mem_nonzerosL hq
    have h1 : q.1 < g.nodes.length := by
      have := hpshape.1
      omega
    have hrowlen : (p.2.getD q.1 []).length = g.nodes.length :=
      hpshape.2 _ (getD_mem_of_lt [] (by omega))
    have h2 : q.2 < g.nodes.length := by
      have := hbound.2
      omega
    exact ⟨getD_mem_of_lt default h1, getD_mem_of_lt default h2⟩

/-! ### Claim C8: transitive-closure numerics on the five-transition NFA -/

/-- C8: for the NFA with transitions `0-a→1, 1-b→1, 1-c→2, 2-c→3, 3-b→0`,
summing the per-symbol matrices and iterating `M ← M + M·M` until `nnz`
stabilises yields the integer accumulation matrix
`[[33,84,60,44],[44,117,84,60],[16,44,33,24],[24,60,44,33]]`, every entry
of which is nonzero, so the boolean transitive closure is the all-ones
4×4 matrix. -/
theorem c8_transitive_closure_numeric :
    matToLists (getTransitiveClosure (fromNfa closureNfa)) =
      [[33, 84, 60, 44], [44, 117, 84, 60], [16, 44, 33, 24], [24, 60, 44, 33]] ∧
    matToBoolLists (getTransitiveClosure (fromNfa closureNfa)) =
      [[true, true, true, true], [true, true, true, true],
       [true, true, true, true], [true, true, true, true]] := by
  constructor
  · decide
  · decide

/-! ### Claim C7: idempotence of the transitive closure -/

/-- C7 counterexample: the claim says re-applying the closure to the
matrix it returned yields the same matrix, but on the bundle of
`closureNfa` the first application returns entry 33 at `(0,0)` while the
second returns 6834 there: the loop body `M += M @ M` runs once more on
the numeric matrix before `nnz` is seen to be stable, changing the stored
values (though not the nonzero pattern). -/
theorem c7_counterexample :
    (getTransitiveClosure (fromNfa closureNfa)).entry 0 0 = 33 ∧
    (getTransitiveClosure (repack (fromNfa closureNfa) "tc"
        (getTransitiveClosure (fromNfa closureNfa)))).entry 0 0 = 6834 ∧
    ¬ (getTransitiveClosure (repack (fromNfa closureNfa) "tc"
        (getTransitiveClosure (fromNfa closureNfa)))).entry 0 0 =
      (getTransitiveClosure (fromNfa closureNfa)).entry 0 0 := by
  refine ⟨by decide, by decide, by decide⟩

/-- C7 amended: applying `get_transitive_closure` to the matrix returned
by a first application (repackaged as the single matrix of a bundle over
the same states) yields a matrix with the same nonzero pattern — the
same matrix after booleanization, though not numerically. -/
theorem c7_closure_pattern_idempotent {σ L : Type} (b : BooleanMatrix σ L)
    (l : L) :
    (getTransitiveClosure (repack b l (getTransitiveClosure b))).patt =
      (getTransitiveClosure b).patt := by
  set T := getTransitiveClosure b with hT
  have htrans : TransPatt T := getTransitiveClosure_trans b
  have hTdim : T.dim = b.stateToIndex.length := getTransitiveClosure_dim b
  have hpatt : (gtcSum (repack b l T)).patt = T.patt := by
    rw [gtcSum_repack]
    exact SpMat.patt_congr (by simp [SpMat.add, SpMat.zero, hTdim])
      (fun i j => by simp [SpMat.add, SpMat.zero])
  have hTtrans : TransPatt (gtcSum (repack b l T)) := by
    intro i j k hij hjk
    rw [hpatt] at hij hjk ⊢
    exact htrans i j k hij hjk
  have hstable :
      ((gtcSum (repack b l T)).add
        ((gtcSum (repack b l T)).mul (gtcSum (repack b l T)))).nnz =
        (gtcSum (repack b l T)).nnz := by
    rw [SpMat.nnz, SpMat.nnz, patt_step_of_trans hTtrans]
  unfold getTransitiveClosure
  dsimp only
  split
  · exact hpatt
  · rw [tcLoop_stable_eq _ _ hstable, patt_step_of_trans hTtrans, hpatt]

/-! ### Claim C3: correctness of the intersection -/

/-- C3: for all bundles `A`, `B`, the `&` operator produces, for every
symbol `s` present in both matrix dictionaries, exactly the Kronecker
product `A.matrices[s] ⊗ B.matrices[s]` (whose entries satisfy the
defining formula `(A ⊗ B)[i·n_B + r, j·n_B + c] = A[i,j] · B[r,c]`); its
state map sends the pair `(a, b)` to `idx_A(a)·|B| + idx_B(b)`; and —
given the bundle invariant that start/final states are keys of the state
map — its start (final) states are exactly the pairs of start (final)
states. -/
theorem c3_intersection_correct {σ τ L : Type} [DecidableEq σ]
    [DecidableEq τ] [DecidableEq L] (A : BooleanMatrix σ L)
    (B : BooleanMatrix τ L) :
    (∀ s MA MB, afind A.boolMatrices s = some MA →
      afind B.boolMatrices s = some MB →
      afind (A.inter B).boolMatrices s = some (SpMat.kron MA MB) ∧
      ∀ i j r c, r < MB.dim → c < MB.dim →
        (SpMat.kron MA MB).entry (i * MB.dim + r) (j * MB.dim + c) =
          MA.entry i j * MB.entry r c) ∧
    (∀ a b ia ib, afind A.stateToIndex a = some ia →
      afind B.stateToIndex b = some ib →
      afind (A.inter B).stateToIndex (a, b) =
        some (ia * B.stateToIndex.length + ib)) ∧
    ((∀ s ∈ A.startStates, s ∈ akeys A.stateToIndex) →
      (∀ s ∈ B.startStates, s ∈ akeys B.stateToIndex) →
      ∀ a b, (a, b) ∈ (A.inter B).startStates ↔
        a ∈ A.startStates ∧ b ∈ B.startStates) ∧
    ((∀ s ∈ A.finalStates, s ∈ akeys A.stateToIndex) →
      (∀ s ∈ B.finalStates, s ∈ akeys B.stateToIndex) →
      ∀ a b, (a, b) ∈ (A.inter B).finalStates ↔
        a ∈ A.finalStates ∧ b ∈ B.finalStates) := by
  refine ⟨?_, ?_, ?_, ?_⟩
  · intro s MA MB hMA hMB
    refine ⟨?_, fun i j r c hr hc => kron_entry_formula MA MB hr hc⟩
    have hsA : s ∈ akeys A.boolMatrices := afind_mem_keys hMA
    have hsB : s ∈ akeys B.boolMatrices := afind_mem_keys hMB
    have hmem : s ∈ (akeys A.boolMatrices).filter fun l =>
        decide (l ∈ akeys B.boolMatrices) :=
      List.mem_filter.mpr ⟨hsA, by simpa using hsB⟩
    show afind (interMatrices A B) s = _
    unfold interMatrices
    rw [afind_keyfun _ _ hmem, hMA, hMB]
    rfl
  · intro a b ia ib hA hB
    exact afind_interStateToIndex A B hA hB
  · exact fun hA hB => mem_interStarts A B hA hB
  · exact fun hA hB => mem_interFinals A B hA hB

/-- Witness for C3: the theorem applied to the two bundles of the
intersection fixture of `test_boolean_matrix.py` reduced to two states
each, with the hypotheses discharged on the concrete data. -/
theorem c3_intersection_correct_witness :
    afind (BooleanMatrix.inter
      (⟨[(0, 0), (1, 1)], [0], [1],
        [("a", ⟨2, fun i j => if i = 0 ∧ j = 1 then 1 else 0⟩)]⟩ :
          BooleanMatrix Nat String)
      (⟨[(0, 0), (1, 1)], [0], [1],
        [("a", ⟨2, fun i j => if i = 0 ∧ j = 1 then 1 else 0⟩)]⟩ :
          BooleanMatrix Nat String)).stateToIndex ((0 : Nat), (1 : Nat)) =
      some 1 := by
  have h := (c3_intersection_correct
    (⟨[(0, 0), (1, 1)], [0], [1],
      [("a", ⟨2, fun i j => if i = 0 ∧ j = 1 then 1 else 0⟩)]⟩ :
        BooleanMatrix Nat String)
    (⟨[(0, 0), (1, 1)], [0], [1],
      [("a", ⟨2, fun i j => if i = 0 ∧ j = 1 then 1 else 0⟩)]⟩ :
        BooleanMatrix Nat String)).2.1 0 1 0 1 (by decide) (by decide)
  simpa using h

/-! ### Claim C9: `to_nfa` against `from_nfa` -/

/-- C9: `to_nfa` is claimed to invert `from_nfa`, but it evaluates
`dok_matrix.toarray()` — on the class, not the matrix — and so raises
`TypeError` on any bundle with at least one matrix.  On the bundle built
from the five-transition NFA (which has three matrices and a nonempty
transition set) it crashes instead of returning an NFA. -/
theorem c9_to_nfa_crashes :
    toNfa (fromNfa closureNfa) = none ∧ closureNfa.transitions ≠ [] := by
  constructor
  · rfl
  · decide

/-! ### Lemmas for the empty-graph behavior of the solvers -/

theorem patt_zero (d : Nat) : (SpMat.zero d).patt = ∅ := by
  unfold SpMat.patt SpMat.zero
  simp

theorem nnz_zero (d : Nat) : (SpMat.zero d).nnz = 0 := by
  rw [SpMat.nnz, patt_zero]
  rfl

theorem gtc_of_matrices_nil {σ L : Type} (b : BooleanMatrix σ L)
    (h : b.boolMatrices = []) :
    getTransitiveClosure b = SpMat.zero b.stateToIndex.length := by
  have hsum : gtcSum b = SpMat.zero b.stateToIndex.length := by
    unfold gtcSum
    rw [h]
    rfl
  unfold getTransitiveClosure
  dsimp only
  rw [hsum, if_pos (nnz_zero _)]

theorem spNonzeros_zero (d : Nat) : spNonzeros (SpMat.zero d) = [] := by
  unfold spNonzeros SpMat.zero
  simp

theorem interMatrices_left_nil {σ τ L : Type} [DecidableEq L]
    (A : BooleanMatrix σ L) (B : BooleanMatrix τ L)
    (h : A.boolMatrices = []) : interMatrices A B = [] := by
  unfold interMatrices
  rw [h]
  rfl

/-- `rpq_tensor` on a graph NFA with no symbols (hence no matrices)
yields the empty pair set, whatever the query bundle. -/
theorem rpqTensor_nfa_no_symbols {V Q : Type} [DecidableEq V]
    [DecidableEq Q] (g : LGraph V) (S F : Option (List V))
    (q : BooleanMatrix Q String) (nfa : ENfa V String)
    (hg : graphToEpsilonNfa g S F = some nfa) (hsym : nfa.symbols = []) :
    rpqTensor g S F q = some (∅ : Finset (V × V)) := by
  unfold rpqTensor
  rw [hg, Option.map_some']
  congr 1
  have hm : ((fromNfa nfa).inter q).boolMatrices = [] := by
    show interMatrices (fromNfa nfa) q = []
    refine interMatrices_left_nil _ _ ?_
    show nfa.symbols.map _ = []
    rw [hsym]
    rfl
  unfold rpqTensorOn
  dsimp only
  rw [gtc_of_matrices_nil _ hm, spNonzeros_zero]
  rfl

/-- The inner `mapIdx` pass that zeroes every cell of a matrix against
itself produces the all-zero matrix of the same shape. -/
theorem mapIdx_row_zero (row : List Nat) (g : Nat → Nat)
    (hg : ∀ j, g j = row.getD j 0) :
    (row.mapIdx fun j v => if g j ≠ 0 then 0 else v) =
      row.map fun _ => 0 := by
  induction row generalizing g with
  | nil => rfl
  | cons r rs ih =>
    rw [List.mapIdx_cons, List.map_cons]
    congr 1
    · have h0 := hg 0
      simp only [List.getD_cons_zero] at h0
      by_cases hr : r = 0
      · simp [h0, hr]
      · simp [h0, hr]
    · refine ih (fun j => g (j + 1)) fun j => ?_
      show g (j + 1) = rs.getD j 0
      rw [hg (j + 1)]
      rfl

theorem mapIdx_mat_zero (l : LMat) (G : Nat → Nat → Nat)
    (hG : ∀ i j, G i j = lget l i j) :
    (l.mapIdx fun i row => row.mapIdx fun j v => if G i j ≠ 0 then 0 else v) =
      l.map fun row => row.map fun _ => 0 := by
  induction l generalizing G with
  | nil => rfl
  | cons r rs ih =>
    rw [List.mapIdx_cons, List.map_cons]
    congr 1
    · refine mapIdx_row_zero r (G 0) fun j => ?_
      rw [hG 0 j]
      rfl
    · refine ih (fun i j => G (i + 1) j) fun i j => ?_
      show G (i + 1) j = lget rs i j
      rw [hG (i + 1) j]
      rfl

theorem zipWith_add_rowzero (row : List Nat) :
    List.zipWith (fun a b => a + b) row (row.map fun _ => 0) = row := by
  induction row with
  | nil => rfl
  | cons r rs ih =>
    rw [List.map_cons, List.zipWith_cons_cons, ih, Nat.add_zero]

theorem ladd_matzero (l : LMat) :
    ladd l (l.map fun row => row.map fun _ => 0) = l := by
  unfold ladd
  induction l with
  | nil => rfl
  | cons r rs ih =>
    rw [List.map_cons, List.zipWith_cons_cons, ih, zipWith_add_rowzero]

theorem bfsStep_nil (m rows cols : Nat) (init : LMat) :
    bfsStep [] m rows cols init init =
      (init, init.map fun row => row.map fun _ => 0) := by
  unfold bfsStep
  dsimp only
  rw [List.foldl_nil]
  rw [mapIdx_mat_zero init (fun i j => lget init i j) (fun _ _ => rfl)]
  rw [ladd_matzero]

theorem bfsLoop_nil (m rows cols fuel : Nat) (init : LMat) :
    bfsLoop [] m rows cols (fuel + 1) init init = init := by
  unfold bfsLoop
  dsimp only
  rw [bfsStep_nil]
  rw [if_pos rfl]

theorem filter_not_mem_self {α : Type} [DecidableEq α] (l : List α) :
    (l.filter fun p => decide (p ∉ l)) = [] :=
  List.filter_eq_nil_iff.mpr fun a ha => by simp [ha]

/-- `sync_bfs` against a graph bundle having no matrices returns the
empty set for every query bundle and mode: no symbol is shared, the
front never advances, and nothing beyond the initial front is ever
visited. -/
theorem syncBfs_self_no_matrices {V Q : Type} [DecidableEq V]
    [DecidableEq Q] [Inhabited V] (self : BooleanMatrix V String)
    (q : BooleanMatrix Q String) (perNode : Bool)
    (h : self.boolMatrices = []) : syncBfs self q perNode = ∅ := by
  unfold syncBfs
  split
  · rfl
  · have hds : dsumMatrices q self = [] := by
      unfold dsumMatrices
      have : ((akeys q.boolMatrices).filter fun l =>
          decide (l ∈ akeys self.boolMatrices)) = [] := by
        refine List.filter_eq_nil_iff.mpr fun a _ => ?_
        rw [h]
        simp [akeys]
      rw [this]
      rfl
    rw [hds]
    show bfsExtract self q perNode self.startStates
      (bfsLoop [] _ _ _ _ _ _) _ = ∅
    rw [bfsLoop_nil]
    unfold bfsExtract
    dsimp only
    have hnil : ((nonzerosL (initFront self q perNode self.startStates)).filter
        fun p => decide (p ∉ nonzerosL (initFront self q perNode self.startStates))) = [] :=
      List.filter_eq_nil_iff.mpr fun a ha => by simp [ha]
    rw [hnil]
    rfl

theorem graphToEpsilonNfa_empty (S F : Option (List Nat)) :
    ∃ nfa, graphToEpsilonNfa emptyGraph S F = some nfa ∧
      nfa.symbols = [] :=
  ⟨_, rfl, rfl⟩

/-! ### Claim C2: empty-graph results and failure-freedom -/

/-- C2: on the graph with no vertices, the Hellings and Matrix CFPQ
solvers and both RPQ solvers return the empty set for every grammar,
query bundle, mode and start/final sets; but the tensor CFPQ solver
cannot even do that on a grammar with a nullable nonterminal: besides
calling the undefined `BooleanMatrix.from_rsm` first, its nullable
seeding looks up the nonterminal's name in the empty graph bundle's
(empty) matrix dictionary — a `KeyError` (the lookup is `none`), so the
solver raises instead of returning `∅`. -/
theorem c2_failure_semantics {Q : Type} [DecidableEq Q] :
    (∀ (prods : List (String × Wbody String)) (S F : Option (List Nat))
      (sym : String), cfpqHellings prods emptyGraph S F sym = ∅) ∧
    (∀ (prods : List (String × Wbody String)) (S F : Option (List Nat))
      (sym : String), cfpqMatrix prods emptyGraph S F sym = ∅) ∧
    (∀ (q : BooleanMatrix Q String) (S F : Option (List Nat)),
      rpqTensor emptyGraph S F q = some ∅) ∧
    (∀ (q : BooleanMatrix Q String) (mode : RpqMode)
      (S F : Option (List Nat)), rpqBfs emptyGraph q mode S F = some ∅) ∧
    tensorSeedNullable (fromNfa (fromNetworkx emptyGraph)) ["S"] = none := by
  refine ⟨?_, ?_, ?_, ?_, rfl⟩
  · intro prods S F sym
    rfl
  · intro prods S F sym
    rfl
  · intro q S F
    obtain ⟨nfa, hg, hsym⟩ := graphToEpsilonNfa_empty S F
    exact rpqTensor_nfa_no_symbols emptyGraph S F q nfa hg hsym
  · intro q mode S F
    obtain ⟨nfa, hg, hsym⟩ := graphToEpsilonNfa_empty S F
    unfold rpqBfs
    rw [hg, Option.map_some']
    congr 1
    refine syncBfs_self_no_matrices _ q _ ?_
    show nfa.symbols.map _ = []
    rw [hsym]
    rfl

/-- One unfolding of the `sync_bfs` loop through a computed step. -/
theorem bfsLoop_succ (dsL : List LMat) (m rows cols fuel : Nat)
    (v f : LMat) (p : LMat × LMat)
    (hstep : bfsStep dsL m rows cols v f = p) :
    bfsLoop dsL m rows cols (fuel + 1) v f =
      if lnnz p.1 = lnnz v then p.1
      else bfsLoop dsL m rows cols fuel p.1 p.2 := by
  show (let step := bfsStep dsL m rows cols v f
        if lnnz step.1 = lnnz v then step.1
        else bfsLoop dsL m rows cols fuel step.1 step.2) = _
  dsimp only
  rw [hstep]

/-! ### Characterization of the tensor RPQ solver -/

theorem mem_spNonzeros {m : SpMat} {p : Nat × Nat} :
    p ∈ spNonzeros m ↔ p ∈ m.patt := by
  rcases p with ⟨i, j⟩
  rw [SpMat.mem_patt]
  unfold spNonzeros
  simp only [List.mem_flatMap, List.mem_filterMap, List.mem_range]
  constructor
  · rintro ⟨i', hi', j', hj', hij⟩
    by_cases hne : m.entry i' j' ≠ 0
    · rw [if_pos hne] at hij
      cases hij
      exact ⟨hi', hj', hne⟩
    · rw [if_neg hne] at hij
      exact absurd hij (by simp)
  · rintro ⟨hi, hj, hne⟩
    exact ⟨i, hi, j, hj, by rw [if_pos hne]⟩

theorem patt_foldl_add (mats : List SpMat) :
    ∀ acc : SpMat, (∀ M ∈ mats, M.dim = acc.dim) → ∀ p : Nat × Nat,
      (p ∈ (mats.foldl SpMat.add acc).patt ↔
        p ∈ acc.patt ∨ ∃ M ∈ mats, p ∈ M.patt) := by
  induction mats with
  | nil => simp
  | cons M tl ih =>
    intro acc hdim p
    rw [List.foldl_cons]
    have hd : M.dim = acc.dim := hdim M (by simp)
    have h2 : ∀ N ∈ tl, N.dim = (acc.add M).dim := fun N hN =>
      hdim N (by simp [hN])
    rw [ih _ h2 p, SpMat.patt_add _ _ hd, Finset.mem_union]
    simp only [List.mem_cons]
    constructor
    · rintro ((h | h) | ⟨N, hN, hp⟩)
      · exact Or.inl h
      · exact Or.inr ⟨M, Or.inl rfl, h⟩
      · exact Or.inr ⟨N, Or.inr hN, hp⟩
    · rintro (h | ⟨N, (rfl | hN), hp⟩)
      · exact Or.inl (Or.inl h)
      · exact Or.inl (Or.inr hp)
      · exact Or.inr ⟨N, hN, hp⟩

theorem mem_patt_gtcSum {σ L : Type} (b : BooleanMatrix σ L)
    (hdim : ∀ p ∈ b.boolMatrices, p.2.dim = b.stateToIndex.length)
    {x : Nat × Nat} :
    x ∈ (gtcSum b).patt ↔ ∃ p ∈ b.boolMatrices, x ∈ p.2.patt := by
  unfold gtcSum
  rw [patt_foldl_add _ _ ?hd x]
  case hd =>
    intro M hM
    rcases List.mem_map.mp hM with ⟨p, hp, rfl⟩
    exact hdim p hp
  rw [patt_zero]
  simp only [Finset.not_mem_empty, false_or, List.mem_map]
  constructor
  · rintro ⟨M, ⟨p, hp, rfl⟩, hx⟩
    exact ⟨p, hp, hx⟩
  · rintro ⟨p, hp, hx⟩
    exact ⟨p.2, ⟨p, hp, rfl⟩, hx⟩

theorem mem_patt_kron {A B : SpMat} {x y : Nat} :
    (x, y) ∈ (A.kron B).patt ↔
      x < A.dim * B.dim ∧ y < A.dim * B.dim ∧
      A.entry (x / B.dim) (y / B.dim) ≠ 0 ∧
      B.entry (x % B.dim) (y % B.dim) ≠ 0 := by
  rw [SpMat.mem_patt]
  show _ ∧ _ ∧ A.entry (x / B.dim) (y / B.dim) *
    B.entry (x % B.dim) (y % B.dim) ≠ 0 ↔ _
  rw [Nat.mul_ne_zero_iff]
  exact Iff.rfl

theorem fromNfaMat_entry_ne {σ L : Type} [DecidableEq σ] [DecidableEq L]
    (n : ENfa σ L) (l : L) {i j : Nat} :
    (fromNfaMat n l).entry i j ≠ 0 ↔
      ∃ t ∈ n.transitions, t.2.1 = some l ∧
        afind (stateIndexOf n) t.1 = some i ∧
        afind (stateIndexOf n) t.2.2 = some j := by
  have hiff : (fromNfaMat n l).entry i j ≠ 0 ↔
      (n.transitions.any fun t =>
        decide (t.2.1 = some l) &&
        decide (afind (stateIndexOf n) t.1 = some i) &&
        decide (afind (stateIndexOf n) t.2.2 = some j)) = true := by
    show (if _ then (1 : Nat) else 0) ≠ 0 ↔ _
    split
    · rename_i hc
      exact iff_of_true one_ne_zero hc
    · rename_i hc
      exact iff_of_false (fun h => h rfl) hc
  rw [hiff, List.any_eq_true]
  constructor
  · rintro ⟨t, ht, hc⟩
    simp only [Bool.and_eq_true, decide_eq_true_eq] at hc
    exact ⟨t, ht, hc.1.1, hc.1.2, hc.2⟩
  · rintro ⟨t, ht, h1, h2, h3⟩
    exact ⟨t, ht, by simp [h1, h2, h3]⟩

theorem akeys_stateIndexOf {σ L : Type} (n : ENfa σ L) :
    akeys (stateIndexOf n) = n.states := by
  unfold akeys stateIndexOf
  rw [List.map_map]
  exact List.enum_map_snd n.states

theorem stateIndexOf_map_snd {σ L : Type} (n : ENfa σ L) :
    (stateIndexOf n).map Prod.snd = List.range n.states.length := by
  unfold stateIndexOf
  rw [List.map_map]
  exact List.enum_map_fst n.states

theorem stateIndexOf_snd_lt {σ L : Type} (n : ENfa σ L) :
    ∀ p ∈ stateIndexOf n, p.2 < n.states.length := by
  intro p hp
  rcases List.mem_map.mp hp with ⟨q, hq, rfl⟩
  rcases List.getElem?_eq_some.mp (List.mem_enum_iff_getElem?.mp hq) with ⟨hlt, -⟩
  exact hlt

theorem afind_of_nodup_keys {α β : Type} [DecidableEq α]
    {l : List (α × β)} (h : (akeys l).Nodup) {a : α} {b : β}
    (hm : (a, b) ∈ l) : afind l a = some b := by
  induction l with
  | nil => exact absurd hm (List.not_mem_nil _)
  | cons hd tl ih =>
    rcases hd with ⟨k, v⟩
    have hkeys : akeys ((k, v) :: tl) = k :: akeys tl := rfl
    rw [hkeys] at h
    rw [afind_cons]
    rcases List.mem_cons.mp hm with he | hm'
    · cases he
      rw [if_pos rfl]
    · by_cases hk : k = a
      · exfalso
        subst hk
        exact (List.nodup_cons.mp h).1
          (mem_akeys.mpr ⟨(k, b), hm', rfl⟩)
      · rw [if_neg hk]
        exact ih (List.nodup_cons.mp h).2 hm'

theorem ainv_mem {σ : Type} {l : List (σ × Nat)} {i : Nat} {s : σ}
    (h : ainv l i = some s) : (s, i) ∈ l := by
  unfold ainv at h
  rcases Option.map_eq_some'.mp h with ⟨p, hfind, hfst⟩
  have hp := List.find?_some hfind
  have hmem := List.mem_of_find?_eq_some hfind
  rw [decide_eq_true_eq] at hp
  rcases p with ⟨s', i'⟩
  cases hfst
  cases hp
  exact hmem

theorem ainv_of_nodup_values {σ : Type} {l : List (σ × Nat)}
    (h : (l.map Prod.snd).Nodup) {s : σ} {i : Nat} (hm : (s, i) ∈ l) :
    ainv l i = some s := by
  induction l with
  | nil => exact absurd hm (List.not_mem_nil _)
  | cons hd tl ih =>
    rcases hd with ⟨k, v⟩
    rw [List.map_cons] at h
    have hni : ainv ((k, v) :: tl) i =
        if v = i then some k else ainv tl i := by
      unfold ainv
      by_cases hv : v = i
      · simp [List.find?, hv]
      · simp [List.find?, hv]
    rw [hni]
    rcases List.mem_cons.mp hm with he | hm'
    · cases he
      rw [if_pos rfl]
    · by_cases hv : v = i
      · exfalso
        subst hv
        exact (List.nodup_cons.mp h).1
          (List.mem_map.mpr ⟨(s, v), hm', rfl⟩)
      · rw [if_neg hv]
        exact ih (List.nodup_cons.mp h).2 hm'

theorem afind_stateIndexOf {σ L : Type} [DecidableEq σ] (n : ENfa σ L)
    (hnd : n.states.Nodup) {s : σ} {i : Nat} :
    afind (stateIndexOf n) s = some i ↔ n.states[i]? = some s := by
  constructor
  · intro h
    have hm := afind_mem h
    rcases List.mem_map.mp hm with ⟨q, hq, hqe⟩
    have h1 : q.2 = s := congrArg Prod.fst hqe
    have h2 : q.1 = i := congrArg Prod.snd hqe
    rw [← h1, ← h2]
    exact (List.mem_enum_iff_getElem?.mp (by
      rcases q with ⟨a, b⟩
      exact hq))
  · intro h
    refine afind_of_nodup_keys ?_ ?_
    · rw [akeys_stateIndexOf]
      exact hnd
    · exact List.mem_map.mpr ⟨(i, s), List.mem_enum_iff_getElem?.mpr h, rfl⟩

theorem fromNfa_sti {σ L : Type} [DecidableEq σ] [DecidableEq L]
    (n : ENfa σ L) : (fromNfa n).stateToIndex = stateIndexOf n :=
  rfl

theorem fromNfa_bm {σ L : Type} [DecidableEq σ] [DecidableEq L]
    (n : ENfa σ L) :
    (fromNfa n).boolMatrices = n.symbols.map fun l => (l, fromNfaMat n l) :=
  rfl

theorem fromNfa_starts {σ L : Type} [DecidableEq σ] [DecidableEq L]
    (n : ENfa σ L) : (fromNfa n).startStates = n.starts :=
  rfl

theorem fromNfa_finals {σ L : Type} [DecidableEq σ] [DecidableEq L]
    (n : ENfa σ L) : (fromNfa n).finalStates = n.finals :=
  rfl

theorem fromNfaMat_dim {σ L : Type} [DecidableEq σ] [DecidableEq L]
    (n : ENfa σ L) (l : L) : (fromNfaMat n l).dim = n.states.length :=
  rfl

theorem inter_sti {σ τ L : Type} [DecidableEq σ] [DecidableEq τ]
    [DecidableEq L] (A : BooleanMatrix σ L) (B : BooleanMatrix τ L) :
    (A.inter B).stateToIndex = interStateToIndex A B :=
  rfl

theorem inter_bm {σ τ L : Type} [DecidableEq σ] [DecidableEq τ]
    [DecidableEq L] (A : BooleanMatrix σ L) (B : BooleanMatrix τ L) :
    (A.inter B).boolMatrices = interMatrices A B :=
  rfl

theorem inter_starts {σ τ L : Type} [DecidableEq σ] [DecidableEq τ]
    [DecidableEq L] (A : BooleanMatrix σ L) (B : BooleanMatrix τ L) :
    (A.inter B).startStates = interStarts A B :=
  rfl

theorem inter_finals {σ τ L : Type} [DecidableEq σ] [DecidableEq τ]
    [DecidableEq L] (A : BooleanMatrix σ L) (B : BooleanMatrix τ L) :
    (A.inter B).finalStates = interFinals A B :=
  rfl

theorem akeys_map_pair {α β : Type} (xs : List α) (f : α → β) :
    akeys (xs.map fun x => (x, f x)) = xs := by
  induction xs with
  | nil => rfl
  | cons x tl ih =>
    show x :: akeys (tl.map fun x => (x, f x)) = x :: tl
    rw [ih]

theorem afind_map_pair {α β : Type} [DecidableEq α] (xs : List α)
    (f : α → β) (a : α) :
    afind (xs.map fun x => (x, f x)) a =
      if a ∈ xs then some (f a) else none := by
  induction xs with
  | nil => rfl
  | cons x tl ih =>
    rw [List.map_cons, afind_cons]
    by_cases hx : x = a
    · subst hx
      rw [if_pos rfl, if_pos (List.mem_cons_self x tl)]
    · rw [if_neg hx, ih]
      by_cases hm : a ∈ tl
      · rw [if_pos hm, if_pos (List.mem_cons.mpr (Or.inr hm))]
      · rw [if_neg hm,
          if_neg fun hc => (List.mem_cons.mp hc).elim (fun h => hx h.symm) hm]

theorem stateIndexOf_length {σ L : Type} (n : ENfa σ L) :
    (stateIndexOf n).length = n.states.length := by
  unfold stateIndexOf
  rw [List.length_map, List.enum_length]

theorem fromNfa_sti_length {σ L : Type} [DecidableEq σ] [DecidableEq L]
    (n : ENfa σ L) : (fromNfa n).stateToIndex.length = n.states.length := by
  rw [fromNfa_sti]
  exact stateIndexOf_length n

theorem mem_stateIndexOf {σ L : Type} (n : ENfa σ L) {a : σ} {i : Nat} :
    (a, i) ∈ stateIndexOf n ↔ n.states[i]? = some a := by
  unfold stateIndexOf
  rw [List.mem_map]
  constructor
  · rintro ⟨q, hq, hqe⟩
    have h1 : q.2 = a := congrArg Prod.fst hqe
    have h2 : q.1 = i := congrArg Prod.snd hqe
    rw [← h1, ← h2]
    exact List.mem_enum_iff_getElem?.mp hq
  · intro h
    exact ⟨(i, a), List.mem_enum_iff_getElem?.mpr h, rfl⟩

theorem interSti_length {σ τ L : Type} (A : BooleanMatrix σ L)
    (B : BooleanMatrix τ L) :
    (interStateToIndex A B).length =
      A.stateToIndex.length * B.stateToIndex.length := by
  unfold interStateToIndex
  generalize A.stateToIndex = lA
  induction lA with
  | nil => simp
  | cons p tl ih =>
    rw [List.flatMap_cons, List.length_append, ih, List.length_map,
      List.length_cons]
    ring

theorem mem_interStateToIndex {σ τ L : Type} {A : BooleanMatrix σ L}
    {B : BooleanMatrix τ L} {x : (σ × τ) × Nat} :
    x ∈ interStateToIndex A B ↔
      ∃ p ∈ A.stateToIndex, ∃ q ∈ B.stateToIndex,
        x = ((p.1, q.1), p.2 * B.stateToIndex.length + q.2) := by
  unfold interStateToIndex
  rw [List.mem_flatMap]
  constructor
  · rintro ⟨p, hp, hx⟩
    rcases List.mem_map.mp hx with ⟨q, hq, hqe⟩
    exact ⟨p, hp, q, hq, hqe.symm⟩
  · rintro ⟨p, hp, q, hq, hx⟩
    exact ⟨p, hp, List.mem_map.mpr ⟨q, hq, hx.symm⟩⟩

theorem interSti_fromNfa_mem {V Q : Type} [DecidableEq V] [DecidableEq Q]
    (nfa : ENfa V String) (qn : ENfa Q String) {a : V} {b : Q} {k : Nat} :
    ((a, b), k) ∈ interStateToIndex (fromNfa nfa) (fromNfa qn) ↔
      ∃ ia jb, nfa.states[ia]? = some a ∧ qn.states[jb]? = some b ∧
        k = ia * qn.states.length + jb := by
  rw [mem_interStateToIndex]
  constructor
  · rintro ⟨p, hp, q, hq, hx⟩
    have ha : a = p.1 := congrArg (fun y => y.1.1) hx
    have hb : b = q.1 := congrArg (fun y => y.1.2) hx
    have hk : k = p.2 * (fromNfa qn).stateToIndex.length + q.2 :=
      congrArg Prod.snd hx
    refine ⟨p.2, q.2, ?_, ?_, ?_⟩
    · rw [ha]
      rw [fromNfa_sti] at hp
      exact (mem_stateIndexOf nfa).mp hp
    · rw [hb]
      rw [fromNfa_sti] at hq
      exact (mem_stateIndexOf qn).mp hq
    · rw [hk, fromNfa_sti_length]
  · rintro ⟨ia, jb, hia, hjb, hk⟩
    refine ⟨(a, ia), ?_, (b, jb), ?_, ?_⟩
    · rw [fromNfa_sti]
      exact (mem_stateIndexOf nfa).mpr hia
    · rw [fromNfa_sti]
      exact (mem_stateIndexOf qn).mpr hjb
    · dsimp only
      rw [fromNfa_sti_length, hk]

theorem flat_pairs_nodup {σ τ : Type} (NB : Nat) (lB : List (τ × Nat))
    (hB : (lB.map Prod.snd).Nodup) (hBlt : ∀ q ∈ lB, q.2 < NB) :
    ∀ lA : List (σ × Nat), (lA.map Prod.snd).Nodup →
      ((lA.flatMap fun p => lB.map fun q =>
        ((p.1, q.1), p.2 * NB + q.2)).map Prod.snd).Nodup := by
  have hdiv : ∀ k v, v < NB → (k * NB + v) / NB = k := by
    intro k v hv
    rw [Nat.mul_comm, Nat.mul_add_div (lt_of_le_of_lt (Nat.zero_le v) hv),
      Nat.div_eq_of_lt hv, Nat.add_zero]
  intro lA
  induction lA with
  | nil =>
    intro _
    exact List.Pairwise.nil
  | cons p tl ih =>
    intro hA
    rw [List.map_cons] at hA
    rw [List.flatMap_cons, List.map_append]
    refine List.Nodup.append ?_ (ih (List.nodup_cons.mp hA).2) ?_
    · rw [List.map_map]
      have he : (Prod.snd ∘ fun q : τ × Nat =>
          ((p.1, q.1), p.2 * NB + q.2)) =
          (fun v => p.2 * NB + v) ∘ Prod.snd := rfl
      rw [he, ← List.map_map]
      exact hB.map fun v w hvw => Nat.add_left_cancel hvw
    · intro x hx1 hx2
      rw [List.map_map] at hx1
      rcases List.mem_map.mp hx1 with ⟨q, hq, hxq⟩
      rcases List.mem_map.mp hx2 with ⟨y, hy, hxy⟩
      rcases List.mem_flatMap.mp hy with ⟨p', hp', hyb⟩
      rcases List.mem_map.mp hyb with ⟨q', hq', hyq⟩
      have hx1' : p.2 * NB + q.2 = x := hxq
      have hx2' : x = p'.2 * NB + q'.2 := by
        rw [← hxy, ← hyq]
      have hlt := hBlt q hq
      have hlt' := hBlt q' hq'
      have hpp : p.2 = p'.2 := by
        have hcd := congrArg (fun t => t / NB) (hx1'.trans hx2')
        dsimp only at hcd
        rw [hdiv _ _ hlt, hdiv _ _ hlt'] at hcd
        exact hcd
      have hmem : p.2 ∈ tl.map Prod.snd := by
        rw [hpp]
        exact List.mem_map.mpr ⟨p', hp', rfl⟩
      exact (List.nodup_cons.mp hA).1 hmem

theorem interSti_fromNfa_values_nodup {V Q : Type} [DecidableEq V]
    [DecidableEq Q] (nfa : ENfa V String) (qn : ENfa Q String) :
    ((interStateToIndex (fromNfa nfa) (fromNfa qn)).map Prod.snd).Nodup := by
  unfold interStateToIndex
  refine flat_pairs_nodup _ _ ?_ ?_ _ ?_
  · rw [fromNfa_sti, stateIndexOf_map_snd]
    exact List.nodup_range _
  · intro q hq
    rw [fromNfa_sti] at hq
    rw [fromNfa_sti_length]
    exact stateIndexOf_snd_lt qn q hq
  · rw [fromNfa_sti, stateIndexOf_map_snd]
    exact List.nodup_range _

theorem ainv_interSti_fromNfa {V Q : Type} [DecidableEq V] [DecidableEq Q]
    {nfa : ENfa V String} {qn : ENfa Q String} {k : Nat} {s : V × Q} :
    ainv (interStateToIndex (fromNfa nfa) (fromNfa qn)) k = some s ↔
      (s, k) ∈ interStateToIndex (fromNfa nfa) (fromNfa qn) := by
  constructor
  · exact ainv_mem
  · exact ainv_of_nodup_values (interSti_fromNfa_values_nodup nfa qn)

theorem encodes_iff_mem {V Q : Type} [DecidableEq V] [DecidableEq Q]
    (nfa : ENfa V String) (qn : ENfa Q String) (p : V × Q) (k : Nat) :
    encodes nfa qn p k ↔
      ((p.1, p.2), k) ∈ interStateToIndex (fromNfa nfa) (fromNfa qn) := by
  rw [interSti_fromNfa_mem]
  unfold encodes
  constructor
  · rintro ⟨h1, h2⟩
    refine ⟨k / qn.states.length, k % qn.states.length, h1, h2, ?_⟩
    rw [Nat.mul_comm]
    exact (Nat.div_add_mod k qn.states.length).symm
  · rintro ⟨ia, jb, h1, h2, hk⟩
    rcases List.getElem?_eq_some.mp h2 with ⟨hjb, -⟩
    have hNB : 0 < qn.states.length := lt_of_le_of_lt (Nat.zero_le _) hjb
    have hdivk : k / qn.states.length = ia := by
      rw [hk, Nat.mul_comm, Nat.mul_add_div hNB, Nat.div_eq_of_lt hjb,
        Nat.add_zero]
    have hmodk : k % qn.states.length = jb := by
      rw [hk, Nat.mul_comm, Nat.mul_add_mod, Nat.mod_eq_of_lt hjb]
    exact ⟨by rw [hdivk]; exact h1, by rw [hmodk]; exact h2⟩

theorem encodes_exists {V Q : Type} [DecidableEq V] [DecidableEq Q]
    (nfa : ENfa V String) (qn : ENfa Q String) {a : V} {b : Q}
    (ha : a ∈ nfa.states) (hb : b ∈ qn.states) :
    ∃ k, encodes nfa qn (a, b) k := by
  rcases List.mem_iff_getElem.mp ha with ⟨ia, hia, hae⟩
  rcases List.mem_iff_getElem.mp hb with ⟨jb, hjb, hbe⟩
  refine ⟨ia * qn.states.length + jb, ?_⟩
  rw [encodes_iff_mem, interSti_fromNfa_mem]
  exact ⟨ia, jb, List.getElem?_eq_some.mpr ⟨hia, hae⟩,
    List.getElem?_eq_some.mpr ⟨hjb, hbe⟩, rfl⟩

theorem encodes_unique {V Q : Type} {nfa : ENfa V String}
    {qn : ENfa Q String} {p q : V × Q} {k : Nat}
    (hp : encodes nfa qn p k) (hq : encodes nfa qn q k) : p = q := by
  rcases hp with ⟨h1, h2⟩
  rcases hq with ⟨h3, h4⟩
  have e1 : p.1 = q.1 := Option.some.inj (h1.symm.trans h3)
  have e2 : p.2 = q.2 := Option.some.inj (h2.symm.trans h4)
  exact Prod.ext e1 e2

theorem encodes_lt {V Q : Type} {nfa : ENfa V String} {qn : ENfa Q String}
    {p : V × Q} {k : Nat} (h : encodes nfa qn p k) :
    k < nfa.states.length * qn.states.length := by
  rcases h with ⟨h1, h2⟩
  rcases List.getElem?_eq_some.mp h1 with ⟨hdiv, -⟩
  rcases List.getElem?_eq_some.mp h2 with ⟨hmod, -⟩
  have hNB : 0 < qn.states.length := lt_of_le_of_lt (Nat.zero_le _) hmod
  exact (Nat.div_lt_iff_lt_mul hNB).mp hdiv

theorem mem_interMatrices_fromNfa {V Q : Type} [DecidableEq V]
    [DecidableEq Q] (nfa : ENfa V String) (qn : ENfa Q String) {l : String}
    {M : SpMat} :
    (l, M) ∈ interMatrices (fromNfa nfa) (fromNfa qn) ↔
      l ∈ nfa.symbols ∧ l ∈ qn.symbols ∧
        M = SpMat.kron (fromNfaMat nfa l) (fromNfaMat qn l) := by
  unfold interMatrices
  rw [List.mem_map]
  constructor
  · rintro ⟨l', hl', he⟩
    rcases List.mem_filter.mp hl' with ⟨hlA, hlB⟩
    rw [decide_eq_true_eq] at hlB
    rw [Prod.mk.injEq] at he
    rcases he with ⟨hl, hMM⟩
    subst hl
    rw [fromNfa_bm, akeys_map_pair] at hlA
    rw [fromNfa_bm, akeys_map_pair] at hlB
    refine ⟨hlA, hlB, ?_⟩
    rw [← hMM, fromNfa_bm nfa, fromNfa_bm qn, afind_map_pair, afind_map_pair,
      if_pos hlA, if_pos hlB, Option.getD_some, Option.getD_some]
  · rintro ⟨h1, h2, hM⟩
    refine ⟨l, List.mem_filter.mpr ⟨?_, ?_⟩, ?_⟩
    · rw [fromNfa_bm, akeys_map_pair]
      exact h1
    · rw [decide_eq_true_eq, fromNfa_bm, akeys_map_pair]
      exact h2
    · rw [fromNfa_bm nfa, fromNfa_bm qn, afind_map_pair, afind_map_pair,
        if_pos h1, if_pos h2, Option.getD_some, Option.getD_some, hM]

theorem interMatrices_fromNfa_dims {V Q : Type} [DecidableEq V]
    [DecidableEq Q] (nfa : ENfa V String) (qn : ENfa Q String) :
    ∀ p ∈ ((fromNfa nfa).inter (fromNfa qn)).boolMatrices,
      p.2.dim = ((fromNfa nfa).inter (fromNfa qn)).stateToIndex.length := by
  intro p hp
  rcases p with ⟨l, M⟩
  rw [inter_bm] at hp
  rcases (mem_interMatrices_fromNfa nfa qn).mp hp with ⟨-, -, rfl⟩
  rw [inter_sti, interSti_length, fromNfa_sti_length, fromNfa_sti_length]
  rfl

theorem interStep_iff {V Q : Type} [DecidableEq V] [DecidableEq Q]
    (nfa : ENfa V String) (qn : ENfa Q String)
    (hV : nfa.states.Nodup) (hQ : qn.states.Nodup) (k k' : Nat) :
    pattRel (gtcSum ((fromNfa nfa).inter (fromNfa qn))) k k' ↔
      ∃ x y : V × Q, encodes nfa qn x k ∧ encodes nfa qn y k' ∧
        SyncStep nfa qn x y := by
  unfold pattRel
  rw [mem_patt_gtcSum _ (interMatrices_fromNfa_dims nfa qn)]
  constructor
  · rintro ⟨⟨l, M⟩, hp, hkk⟩
    rw [inter_bm] at hp
    rcases (mem_interMatrices_fromNfa nfa qn).mp hp with ⟨hl1, hl2, rfl⟩
    rcases mem_patt_kron.mp hkk with ⟨hk1, hk2, hA, hB⟩
    rw [fromNfaMat_dim] at hA hB
    rcases (fromNfaMat_entry_ne nfa l).mp hA with ⟨t, ht, htl, hti, htj⟩
    rcases (fromNfaMat_entry_ne qn l).mp hB with ⟨s, hs, hsl, hsi, hsj⟩
    refine ⟨(t.1, s.1), (t.2.2, s.2.2), ⟨?_, ?_⟩, ⟨?_, ?_⟩,
      ⟨l, ?_, ?_, hl1, hl2⟩⟩
    · exact (afind_stateIndexOf nfa hV).mp hti
    · exact (afind_stateIndexOf qn hQ).mp hsi
    · exact (afind_stateIndexOf nfa hV).mp htj
    · exact (afind_stateIndexOf qn hQ).mp hsj
    · show (t.1, some l, t.2.2) ∈ nfa.transitions
      rw [← htl]
      exact ht
    · show (s.1, some l, s.2.2) ∈ qn.transitions
      rw [← hsl]
      exact hs
  · rintro ⟨x, y, hx, hy, l, ht, hs, hl1, hl2⟩
    refine ⟨(l, SpMat.kron (fromNfaMat nfa l) (fromNfaMat qn l)), ?_, ?_⟩
    · rw [inter_bm]
      exact (mem_interMatrices_fromNfa nfa qn).mpr ⟨hl1, hl2, rfl⟩
    · have hk := encodes_lt hx
      have hk' := encodes_lt hy
      refine mem_patt_kron.mpr ⟨?_, ?_, ?_, ?_⟩
      · rw [fromNfaMat_dim, fromNfaMat_dim]
        exact hk
      · rw [fromNfaMat_dim, fromNfaMat_dim]
        exact hk'
      · rw [fromNfaMat_dim]
        exact (fromNfaMat_entry_ne nfa l).mpr
          ⟨(x.1, some l, y.1), ht, rfl,
           (afind_stateIndexOf nfa hV).mpr hx.1,
           (afind_stateIndexOf nfa hV).mpr hy.1⟩
      · rw [fromNfaMat_dim]
        exact (fromNfaMat_entry_ne qn l).mpr
          ⟨(x.2, some l, y.2), hs, rfl,
           (afind_stateIndexOf qn hQ).mpr hx.2,
           (afind_stateIndexOf qn hQ).mpr hy.2⟩

theorem transGen_idx_to_sync {V Q : Type} [DecidableEq V] [DecidableEq Q]
    {nfa : ENfa V String} {qn : ENfa Q String}
    (hV : nfa.states.Nodup) (hQ : qn.states.Nodup) {k k' : Nat}
    (h : Relation.TransGen
      (pattRel (gtcSum ((fromNfa nfa).inter (fromNfa qn)))) k k') :
    ∀ x y : V × Q, encodes nfa qn x k → encodes nfa qn y k' →
      Relation.TransGen (SyncStep nfa qn) x y := by
  induction h with
  | single hstep =>
    intro x y hx hy
    rcases (interStep_iff nfa qn hV hQ _ _).mp hstep with ⟨a, b, ha, hb, hs⟩
    rw [encodes_unique hx ha, encodes_unique hy hb]
    exact Relation.TransGen.single hs
  | tail hchain hstep ih =>
    intro x y hx hy
    rcases (interStep_iff nfa qn hV hQ _ _).mp hstep with ⟨a, b, ha, hb, hs⟩
    rw [encodes_unique hy hb]
    exact Relation.TransGen.tail (ih x a hx ha) hs

theorem transGen_sync_to_idx {V Q : Type} [DecidableEq V] [DecidableEq Q]
    {nfa : ENfa V String} {qn : ENfa Q String}
    (hV : nfa.states.Nodup) (hQ : qn.states.Nodup)
    (hVT : ∀ t ∈ nfa.transitions, t.1 ∈ nfa.states ∧ t.2.2 ∈ nfa.states)
    (hQT : ∀ t ∈ qn.transitions, t.1 ∈ qn.states ∧ t.2.2 ∈ qn.states)
    {x y : V × Q} (h : Relation.TransGen (SyncStep nfa qn) x y) :
    ∀ k, encodes nfa qn x k →
      ∃ k', encodes nfa qn y k' ∧
        Relation.TransGen
          (pattRel (gtcSum ((fromNfa nfa).inter (fromNfa qn)))) k k' := by
  induction h with
  | single hs =>
    intro k hk
    obtain ⟨l, ht, hq, hl1, hl2⟩ := hs
    obtain ⟨k', hk'⟩ := encodes_exists nfa qn ((hVT _ ht).2) ((hQT _ hq).2)
    exact ⟨k', hk', Relation.TransGen.single
      ((interStep_iff nfa qn hV hQ k k').mpr
        ⟨x, _, hk, hk', ⟨l, ht, hq, hl1, hl2⟩⟩)⟩
  | tail hchain hs ih =>
    intro k hk
    obtain ⟨km, hkm, hch⟩ := ih k hk
    obtain ⟨l, ht, hq, hl1, hl2⟩ := hs
    obtain ⟨k', hk'⟩ := encodes_exists nfa qn ((hVT _ ht).2) ((hQT _ hq).2)
    exact ⟨k', hk', Relation.TransGen.tail hch
      ((interStep_iff nfa qn hV hQ km k').mpr
        ⟨_, _, hkm, hk', ⟨l, ht, hq, hl1, hl2⟩⟩)⟩

/-- Full characterization of the tensor RPQ core: a pair `(u, v)` is
emitted exactly when `u` is a start and `v` a final graph state and some
query start/final pair is connected to it by a nonempty synchronized
path of shared symbols. -/
theorem rpqTensorOn_char {V Q : Type} [DecidableEq V] [DecidableEq Q]
    (nfa : ENfa V String) (qn : ENfa Q String)
    (hV : nfa.states.Nodup) (hQ : qn.states.Nodup)
    (hVs : ∀ s ∈ nfa.starts, s ∈ nfa.states)
    (hVf : ∀ s ∈ nfa.finals, s ∈ nfa.states)
    (hQs : ∀ s ∈ qn.starts, s ∈ qn.states)
    (hQf : ∀ s ∈ qn.finals, s ∈ qn.states)
    (hVT : ∀ t ∈ nfa.transitions, t.1 ∈ nfa.states ∧ t.2.2 ∈ nfa.states)
    (hQT : ∀ t ∈ qn.transitions, t.1 ∈ qn.states ∧ t.2.2 ∈ qn.states)
    (u v : V) :
    (u, v) ∈ rpqTensorOn nfa (fromNfa qn) ↔
      ∃ qs qf : Q, u ∈ nfa.starts ∧ qs ∈ qn.starts ∧ v ∈ nfa.finals ∧
        qf ∈ qn.finals ∧
        Relation.TransGen (SyncStep nfa qn) (u, qs) (v, qf) := by
  have hkeyS : ∀ s ∈ (fromNfa nfa).startStates,
      s ∈ akeys (fromNfa nfa).stateToIndex := by
    intro s hs
    rw [fromNfa_starts] at hs
    rw [fromNfa_sti, akeys_stateIndexOf]
    exact hVs s hs
  have hkeyF : ∀ s ∈ (fromNfa nfa).finalStates,
      s ∈ akeys (fromNfa nfa).stateToIndex := by
    intro s hs
    rw [fromNfa_finals] at hs
    rw [fromNfa_sti, akeys_stateIndexOf]
    exact hVf s hs
  have hkeyQS : ∀ s ∈ (fromNfa qn).startStates,
      s ∈ akeys (fromNfa qn).stateToIndex := by
    intro s hs
    rw [fromNfa_starts] at hs
    rw [fromNfa_sti, akeys_stateIndexOf]
    exact hQs s hs
  have hkeyQF : ∀ s ∈ (fromNfa qn).finalStates,
      s ∈ akeys (fromNfa qn).stateToIndex := by
    intro s hs
    rw [fromNfa_finals] at hs
    rw [fromNfa_sti, akeys_stateIndexOf]
    exact hQf s hs
  unfold rpqTensorOn
  dsimp only
  rw [List.mem_toFinset, List.mem_filterMap]
  constructor
  · rintro ⟨⟨i, j⟩, hmem, hf⟩
    dsimp only at hf
    rcases hai : ainv ((fromNfa nfa).inter (fromNfa qn)).stateToIndex i with
      - | sf
    · rw [hai] at hf
      rcases haj : ainv ((fromNfa nfa).inter (fromNfa qn)).stateToIndex j with
        - | st
      · rw [haj] at hf
        exact Option.noConfusion hf
      · rw [haj] at hf
        exact Option.noConfusion hf
    · rcases haj : ainv ((fromNfa nfa).inter (fromNfa qn)).stateToIndex j with
        - | st
      · rw [hai, haj] at hf
        exact Option.noConfusion hf
      rw [hai, haj] at hf
      have hf' : (if sf ∈ ((fromNfa nfa).inter (fromNfa qn)).startStates ∧
          st ∈ ((fromNfa nfa).inter (fromNfa qn)).finalStates
          then some (sf.1, st.1) else (none : Option (V × V))) =
          some (u, v) := hf
      by_cases hcond : sf ∈ ((fromNfa nfa).inter (fromNfa qn)).startStates ∧
          st ∈ ((fromNfa nfa).inter (fromNfa qn)).finalStates
      swap
      · rw [if_neg hcond] at hf'
        exact Option.noConfusion hf'
      rw [if_pos hcond] at hf'
      have huv := Option.some.inj hf'
      have hu : sf.1 = u := congrArg Prod.fst huv
      have hv : st.1 = v := congrArg Prod.snd huv
      have hstart := hcond.1
      have hfinal := hcond.2
      rw [inter_starts] at hstart
      rw [inter_finals] at hfinal
      have hst := (mem_interStarts (fromNfa nfa) (fromNfa qn) hkeyS hkeyQS
        sf.1 sf.2).mp hstart
      have hfn := (mem_interFinals (fromNfa nfa) (fromNfa qn) hkeyF hkeyQF
        st.1 st.2).mp hfinal
      rw [fromNfa_starts, fromNfa_starts] at hst
      rw [fromNfa_finals, fromNfa_finals] at hfn
      have hesf : encodes nfa qn sf i := by
        rw [inter_sti] at hai
        exact (encodes_iff_mem nfa qn sf i).mpr (ainv_mem hai)
      have hest : encodes nfa qn st j := by
        rw [inter_sti] at haj
        exact (encodes_iff_mem nfa qn st j).mpr (ainv_mem haj)
      have htg : Relation.TransGen (SyncStep nfa qn) sf st := by
        have hpatt : (i, j) ∈
            (getTransitiveClosure ((fromNfa nfa).inter (fromNfa qn))).patt :=
          mem_spNonzeros.mp hmem
        exact transGen_idx_to_sync hV hQ
          ((gtc_patt_iff _ i j).mp hpatt) sf st hesf hest
      refine ⟨sf.2, st.2, ?_, hst.2, ?_, hfn.2, ?_⟩
      · rw [← hu]
        exact hst.1
      · rw [← hv]
        exact hfn.1
      · rw [← hu, ← hv]
        exact htg
  · rintro ⟨qs, qf, hu, hqs, hv, hqf, htg⟩
    obtain ⟨k, hk⟩ := encodes_exists nfa qn (hVs u hu) (hQs qs hqs)
    obtain ⟨k', hk', hch⟩ := transGen_sync_to_idx hV hQ hVT hQT htg k hk
    refine ⟨(k, k'), mem_spNonzeros.mpr ((gtc_patt_iff _ k k').mpr hch), ?_⟩
    have hik : ainv ((fromNfa nfa).inter (fromNfa qn)).stateToIndex k =
        some (u, qs) := by
      rw [inter_sti]
      exact ainv_interSti_fromNfa.mpr ((encodes_iff_mem nfa qn (u, qs) k).mp hk)
    have hjk : ainv ((fromNfa nfa).inter (fromNfa qn)).stateToIndex k' =
        some (v, qf) := by
      rw [inter_sti]
      exact ainv_interSti_fromNfa.mpr
        ((encodes_iff_mem nfa qn (v, qf) k').mp hk')
    dsimp only
    rw [hik, hjk]
    show (if (u, qs) ∈ ((fromNfa nfa).inter (fromNfa qn)).startStates ∧
        (v, qf) ∈ ((fromNfa nfa).inter (fromNfa qn)).finalStates
        then some ((u, qs).1, (v, qf).1) else (none : Option (V × V))) =
        some (u, v)
    have hcond : (u, qs) ∈ ((fromNfa nfa).inter (fromNfa qn)).startStates ∧
        (v, qf) ∈ ((fromNfa nfa).inter (fromNfa qn)).finalStates := by
      constructor
      · rw [inter_starts]
        refine (mem_interStarts (fromNfa nfa) (fromNfa qn) hkeyS hkeyQS
          u qs).mpr ?_
        rw [fromNfa_starts, fromNfa_starts]
        exact ⟨hu, hqs⟩
      · rw [inter_finals]
        refine (mem_interFinals (fromNfa nfa) (fromNfa qn) hkeyF hkeyQF
          v qf).mpr ?_
        rw [fromNfa_finals, fromNfa_finals]
        exact ⟨hv, hqf⟩
    rw [if_pos hcond]

theorem graphToEpsilonNfa_wf {V : Type} [DecidableEq V] {g : LGraph V}
    {so fo : Option (List V)} {n : ENfa V String}
    (h : graphToEpsilonNfa g so fo = some n) :
    n.states.Nodup ∧ (∀ s ∈ n.starts, s ∈ n.states) ∧
      (∀ s ∈ n.finals, s ∈ n.states) ∧
      (∀ t ∈ n.transitions, t.1 ∈ n.states ∧ t.2.2 ∈ n.states) := by
  unfold graphToEpsilonNfa at h
  split at h
  · cases Option.some.inj h
    refine ⟨List.nodup_dedup _, ?_, ?_, ?_⟩
    · intro s hs
      rw [List.mem_dedup]
      exact List.mem_append.mpr (Or.inl (List.mem_append.mpr (Or.inr hs)))
    · intro s hs
      rw [List.mem_dedup]
      exact List.mem_append.mpr (Or.inr hs)
    · intro t ht
      rcases List.mem_map.mp ht with ⟨e, he, rfl⟩
      constructor
      · rw [List.mem_dedup]
        refine List.mem_append.mpr (Or.inl (List.mem_append.mpr (Or.inl ?_)))
        exact List.mem_flatMap.mpr ⟨e, he, by simp⟩
      · rw [List.mem_dedup]
        refine List.mem_append.mpr (Or.inl (List.mem_append.mpr (Or.inl ?_)))
        exact List.mem_flatMap.mpr ⟨e, he, by simp⟩
  · exact absurd h (by simp)

theorem graphToEpsilonNfa_trans_syms {V : Type} [DecidableEq V]
    {g : LGraph V} {so fo so' fo' : Option (List V)} {n n' : ENfa V String}
    (h : graphToEpsilonNfa g so fo = some n)
    (h' : graphToEpsilonNfa g so' fo' = some n') :
    n.transitions = n'.transitions ∧ n.symbols = n'.symbols ∧
      n.starts = so.getD g.nodes ∧ n.finals = fo.getD g.nodes := by
  unfold graphToEpsilonNfa at h h'
  by_cases hc : (g.edges.all fun e => e.2.1.isSome) = true
  · rw [if_pos hc] at h h'
    cases Option.some.inj h
    cases Option.some.inj h'
    exact ⟨rfl, rfl, rfl, rfl⟩
  · rw [if_neg hc] at h
    exact absurd h (by simp)

theorem syncStep_congr {V Q : Type} {n n' : ENfa V String}
    (qn : ENfa Q String) (ht : n.transitions = n'.transitions)
    (hs : n.symbols = n'.symbols) : SyncStep n qn = SyncStep n' qn := by
  funext x y
  unfold SyncStep
  rw [ht, hs]

/-! ### Claim C1: agreement of the three CFPQ solvers -/

/-- C1: on `build_two_cycles(1,1,("a","b"))` with the grammar
`S → ε | a S b S | S S`, the Hellings and Matrix solvers return
`{(0,0),(1,1),(1,2),(2,2)}` (matching the repo's own
`test_cfpq_tensor.py` expectation), while the tensor solver cannot:
beyond the undefined `BooleanMatrix.from_rsm` it calls first, its
nullable seeding looks up the key `"S"` in the graph bundle's matrix
dictionary, whose keys are only the edge labels `a`, `b` — a
`KeyError` (the lookup is `none`). -/
theorem c1_cfpq_solver_agreement_bug :
    cfpqHellings nullableWcnf twoCyclesGraph none none "S" =
      {(0, 0), (1, 1), (1, 2), (2, 2)} ∧
    cfpqMatrix nullableWcnf twoCyclesGraph none none "S" =
      {(0, 0), (1, 1), (1, 2), (2, 2)} ∧
    tensorSeedNullable (fromNfa (fromNetworkx twoCyclesGraph)) ["S"] =
      none := by
  refine ⟨by decide, by decide, rfl⟩

/-! ### Claim C4: source/sink filtering -/

/-- C4 counterexample: with the empty start set, `cfpq` does not return
`unrestricted ∩ (∅ × F)` — the falsy empty set is replaced by all graph
nodes, so on the one-node graph with grammar `S → ε` the call with
`S = ∅` returns `{(0,0)}` while the claim demands `∅`. -/
theorem c4_counterexample :
    cfpqHellings epsWcnf oneNodeGraph (some []) none "S" = {(0, 0)} ∧
    cfpqHellings epsWcnf oneNodeGraph none none "S" ∩
      (([] : List Nat).toFinset ×ˢ oneNodeGraph.nodes.toFinset) = ∅ ∧
    cfpqHellings epsWcnf oneNodeGraph (some []) none "S" ≠
      cfpqHellings epsWcnf oneNodeGraph none none "S" ∩
        (([] : List Nat).toFinset ×ˢ oneNodeGraph.nodes.toFinset) := by
  refine ⟨by decide, by decide, by decide⟩

/-- C4 amended: the filtering equation `restricted = unrestricted ∩ S×F`
holds for `rpq_tensor` for ALL vertex subsets `S`, `F` (including the
empty set: its entry checks `is None`), and for the `cfpq` entry point
only for NONEMPTY `S`, `F` — for any algorithm triple set with endpoints
among the graph nodes (so for all three CFPQ solvers), and in particular
for Hellings and Matrix; an empty (falsy) `S` or `F` passed to `cfpq` is
instead treated as absent and defaults to all graph nodes, which is what
refutes the original claim. -/
theorem c4_source_sink_filtering {V NT Q : Type} [DecidableEq V]
    [DecidableEq NT] [DecidableEq Q] [Inhabited V]
    (prods : List (NT × Wbody NT)) (g : LGraph V)
    (hedges : ∀ e ∈ g.edges, e.1 ∈ g.nodes ∧ e.2.2 ∈ g.nodes)
    {S F : List V} (hS : S ≠ []) (hF : F ≠ []) (sym : NT) :
    (∀ triples : List (V × NT × V),
      (∀ t ∈ triples, t.1 ∈ g.nodes ∧ t.2.2 ∈ g.nodes) →
      cfpqOn triples g.nodes (some S) (some F) sym =
        cfpqOn triples g.nodes none none sym ∩ (S.toFinset ×ˢ F.toFinset)) ∧
    (cfpqHellings prods g (some S) (some F) sym =
      cfpqHellings prods g none none sym ∩ (S.toFinset ×ˢ F.toFinset)) ∧
    (cfpqMatrix prods g (some S) (some F) sym =
      cfpqMatrix prods g none none sym ∩ (S.toFinset ×ˢ F.toFinset)) ∧
    (∀ (qn : ENfa Q String) (S' F' : List V) (rR rU : Finset (V × V)),
      qn.states.Nodup →
      (∀ s ∈ qn.starts, s ∈ qn.states) →
      (∀ s ∈ qn.finals, s ∈ qn.states) →
      (∀ t ∈ qn.transitions, t.1 ∈ qn.states ∧ t.2.2 ∈ qn.states) →
      (∀ x ∈ S', x ∈ g.nodes) → (∀ x ∈ F', x ∈ g.nodes) →
      rpqTensor g (some S') (some F') (fromNfa qn) = some rR →
      rpqTensor g none none (fromNfa qn) = some rU →
      rR = rU ∩ (S'.toFinset ×ˢ F'.toFinset)) := by
  refine ⟨fun triples hend => cfpqOn_restrict triples g.nodes hend hS hF sym,
    cfpqOn_restrict _ _ (runHellings_endpoints prods g hedges) hS hF sym,
    cfpqOn_restrict _ _ (runMatrix_endpoints prods g) hS hF sym,
    ?_⟩
  intro qn S' F' rR rU hnd hqs hqf hqt hS' hF' hR hU
  unfold rpqTensor at hR hU
  rcases hg : graphToEpsilonNfa g (some S') (some F') with - | nR
  · rw [hg] at hR
    exact absurd hR (by simp)
  rcases hg' : graphToEpsilonNfa g none none with - | nU
  · rw [hg'] at hU
    exact absurd hU (by simp)
  rw [hg, Option.map_some'] at hR
  rw [hg', Option.map_some'] at hU
  have hR' := Option.some.inj hR
  have hU' := Option.some.inj hU
  subst hR'
  subst hU'
  obtain ⟨hndR, hsR, hfR, htR⟩ := graphToEpsilonNfa_wf hg
  obtain ⟨hndU, hsU, hfU, htU⟩ := graphToEpsilonNfa_wf hg'
  obtain ⟨htrans, hsyms, hstR, hfiR⟩ := graphToEpsilonNfa_trans_syms hg hg'
  obtain ⟨-, -, hstU, hfiU⟩ := graphToEpsilonNfa_trans_syms hg' hg'
  ext ⟨u, v⟩
  rw [Finset.mem_inter, Finset.mem_product]
  rw [rpqTensorOn_char nR qn hndR hnd hsR hfR hqs hqf htR hqt u v]
  rw [rpqTensorOn_char nU qn hndU hnd hsU hfU hqs hqf htU hqt u v]
  rw [List.mem_toFinset, List.mem_toFinset]
  rw [syncStep_congr qn htrans hsyms]
  rw [hstR, hfiR, hstU, hfiU]
  rw [Option.getD_some, Option.getD_some, Option.getD_none]
  constructor
  · rintro ⟨qs, qf, h1, h2, h3, h4, h5⟩
    exact ⟨⟨qs, qf, hS' u h1, h2, hF' v h3, h4, h5⟩, h1, h3⟩
  · rintro ⟨⟨qs, qf, -, h2, -, h4, h5⟩, hu, hv⟩
    exact ⟨qs, qf, hu, h2, hv, h4, h5⟩

/-- Witness for C4: the amended filtering theorem applied to the
one-node graph — the `cfpq` equation with grammar `S → ε` and
`S = F = {0}`, and the `rpq_tensor` equation with a one-state query. -/
theorem c4_source_sink_filtering_witness :
    (cfpqHellings epsWcnf oneNodeGraph (some [0]) (some [0]) "S" =
      cfpqHellings epsWcnf oneNodeGraph none none "S" ∩
        (([0] : List Nat).toFinset ×ˢ ([0] : List Nat).toFinset)) ∧
    ((∅ : Finset (Nat × Nat)) = (∅ : Finset (Nat × Nat)) ∩
      (([0] : List Nat).toFinset ×ˢ ([0] : List Nat).toFinset)) := by
  have h := @c4_source_sink_filtering Nat String Nat _ _ _ _ epsWcnf
    oneNodeGraph (by decide) [0] [0] (by decide) (by decide) "S"
  exact ⟨h.2.1, h.2.2.2 c4QueryNfa [0] [0] ∅ ∅ (by decide) (by decide)
    (by decide) (by decide) (by decide) (by decide) (by decide) (by decide)⟩

/-! ### Claim C6: the per-source BFS scenario -/

set_option maxHeartbeats 2000000 in
/-- C6: on the ten-vertex chain labeled `abbabbabb`, `rpq_bfs` with the
min-DFA of `a·bb`, per-source mode, and default (all-vertex) source and
target sets returns exactly `{(0,3), (3,6), (6,9)}`.  The while loop is
walked through its four concrete iterations (the fourth adds no visited
cell and stops the loop). -/
theorem c6_rpq_bfs_chain :
    rpqBfs chainGraph (fromNfa dfaAbbNfa)
      RpqMode.findReachableForEachStartNode none none =
      some {BfsRes.pair 0 3, BfsRes.pair 3 6, BfsRes.pair 6 9} := by
  have hg : rpqBfs chainGraph (fromNfa dfaAbbNfa)
      RpqMode.findReachableForEachStartNode none none =
      some (syncBfs (fromNfa chainNfa) (fromNfa dfaAbbNfa) true) := rfl
  refine hg.trans ?_
  refine congrArg some ?_
  unfold syncBfs
  rw [if_neg (by decide :
    ¬ ((fromNfa chainNfa).stateToIndex = [] ∨
       (fromNfa dfaAbbNfa).stateToIndex = []))]
  have hds : ((dsumMatrices (fromNfa dfaAbbNfa) (fromNfa chainNfa)).map
      fun p => matL ((fromNfa dfaAbbNfa).stateToIndex.length +
        (fromNfa chainNfa).stateToIndex.length) p.2) = [c6DA, c6DB] := by
    decide
  have hinit : initFront (fromNfa chainNfa) (fromNfa dfaAbbNfa) true
      (fromNfa chainNfa).startStates = c6I0 := by decide
  rw [hds, hinit]
  unfold syncBfsCore
  dsimp only
  rw [(by decide : (fromNfa dfaAbbNfa).stateToIndex.length = 4),
    (by decide : (fromNfa chainNfa).stateToIndex.length = 10),
    (by decide : c6I0.length = 40),
    (by decide : (4 : Nat) + 10 = 14)]
  rw [bfsLoop_succ [c6DA, c6DB] 4 40 14 (40 * 14) c6I0 c6I0 (c6V1, c6F1)
    (by decide)]
  rw [if_neg (by decide : ¬ lnnz (c6V1, c6F1).1 = lnnz c6I0)]
  dsimp only
  rw [(by decide : (40 * 14 : Nat) = 559 + 1)]
  rw [bfsLoop_succ [c6DA, c6DB] 4 40 14 559 c6V1 c6F1 (c6V2, c6F2)
    (by decide)]
  rw [if_neg (by decide : ¬ lnnz (c6V2, c6F2).1 = lnnz c6V1)]
  dsimp only
  rw [(by decide : (559 : Nat) = 558 + 1)]
  rw [bfsLoop_succ [c6DA, c6DB] 4 40 14 558 c6V2 c6F2 (c6V3, c6F3)
    (by decide)]
  rw [if_neg (by decide : ¬ lnnz (c6V3, c6F3).1 = lnnz c6V2)]
  dsimp only
  rw [(by decide : (558 : Nat) = 557 + 1)]
  rw [bfsLoop_succ [c6DA, c6DB] 4 40 14 557 c6V3 c6F3 (c6V4, c6F4)
    (by decide)]
  rw [if_pos (by decide : lnnz (c6V4, c6F4).1 = lnnz c6V3)]
  decide

/-! ### Claim C10: the mutation performed by `cfpq` -/

/-- C10: every `cfpq` call overwrites the grammar's start symbol with
the `start_symbol` argument and sets the `is_start` (`is_final`) node
attribute to `True` on every graph node of the effective (possibly
defaulted) start (final) set; the caller's graph and grammar keep these
changes after the call returns. -/
theorem c10_cfpq_mutates_inputs {V NT : Type} [DecidableEq V]
    [DecidableEq NT] (prods : List (NT × Wbody NT)) (g : AGraph V)
    (cfg : CfgModel NT) (startNodes finalNodes : Option (List V))
    (startSym : NT) :
    (cfpqHellingsFull prods g cfg startNodes finalNodes
      startSym).2.2.startSymbol = startSym ∧
    ∀ v a, (v, a) ∈ (cfpqHellingsFull prods g cfg startNodes finalNodes
        startSym).2.1.nodes →
      (v ∈ cfpqEffective (g.nodes.map Prod.fst) startNodes →
        a.isStart = true) ∧
      (v ∈ cfpqEffective (g.nodes.map Prod.fst) finalNodes →
        a.isFinal = true) := by
  refine ⟨rfl, ?_⟩
  intro v a hmem
  rcases List.mem_map.mp hmem with ⟨p, _, hpe⟩
  have hv : p.1 = v := congrArg Prod.fst hpe
  have ha := congrArg Prod.snd hpe
  dsimp only at ha
  subst hv
  constructor
  · intro hS
    rw [← ha]
    simp [hS]
  · intro hF
    rw [← ha]
    simp [hF]

/-- Witness for C10: the mutation theorem applied to a one-node graph
with both attributes initially `False`, default start/final sets, and
start symbol `S` over a grammar object whose start symbol was `T`. -/
theorem c10_cfpq_mutates_inputs_witness :
    (cfpqHellingsFull epsWcnf
      (⟨[(0, ⟨false, false⟩)], []⟩ : AGraph Nat)
      (⟨"T"⟩ : CfgModel String) none none "S").2.2.startSymbol = "S" ∧
    NodeAttrs.isStart (⟨true, true⟩ : NodeAttrs) = true ∧
    NodeAttrs.isFinal (⟨true, true⟩ : NodeAttrs) = true := by
  have h := c10_cfpq_mutates_inputs epsWcnf
    (⟨[(0, ⟨false, false⟩)], []⟩ : AGraph Nat)
    (⟨"T"⟩ : CfgModel String) none none "S"
  have h2 := h.2 0 ⟨true, true⟩ (by decide)
  exact ⟨h.1, h2.1 (by decide), h2.2 (by decide)⟩

/-! ### Claim C5: the graph → epsilon-NFA adapter -/

/-- C5 counterexample: the claim says a missing edge label becomes an
epsilon transition, but on a graph whose single edge has no `label`
attribute the adapter raises `KeyError` (embedded as `none`) instead of
returning an NFA. -/
theorem c5_counterexample :
    graphToEpsilonNfa (⟨[0, 1], [(0, none, 1)]⟩ : LGraph Nat) none none =
      none := by
  rfl

/-- C5 amended: for every edge whose `label` attribute is present, the
adapter produces the transition `u →_{label or ε} v`, an empty label
becoming ε; with `start_states` (`final_states`) absent every graph node
becomes a start (final) state.  An edge without the attribute raises
`KeyError`. -/
theorem c5_graph_to_epsilon_nfa {V : Type} [DecidableEq V] (g : LGraph V)
    (S F : Option (List V)) (h : ∀ e ∈ g.edges, e.2.1.isSome) :
    ∃ nfa, graphToEpsilonNfa g S F = some nfa ∧
      (∀ u l v, (u, l, v) ∈ nfa.transitions ↔
        ∃ s, (u, some s, v) ∈ g.edges ∧ l = edgeLabelToSymbol s) ∧
      nfa.starts = S.getD g.nodes ∧ nfa.finals = F.getD g.nodes ∧
      edgeLabelToSymbol "" = none ∧
      ∀ s, s ≠ "" → edgeLabelToSymbol s = some s := by
  have hall : (g.edges.all fun e => e.2.1.isSome) = true :=
    List.all_eq_true.mpr h
  refine ⟨_, by rw [graphToEpsilonNfa, if_pos hall], ?_, rfl, rfl, rfl,
    fun s hs => by simp [edgeLabelToSymbol, hs]⟩
  intro u l v
  rw [List.mem_map]
  constructor
  · rintro ⟨⟨u', l', v'⟩, he, hf⟩
    obtain ⟨s, rfl⟩ := Option.isSome_iff_exists.mp (h _ he)
    refine ⟨s, ?_, ?_⟩
    · have : u' = u ∧ v' = v := by
        constructor
        · exact congrArg Prod.fst hf
        · exact congrArg (fun p => p.2.2) hf
      rw [← this.1, ← this.2]
      exact he
    · have := congrArg (fun p => p.2.1) hf
      simpa using this.symm
  · rintro ⟨s, he, rfl⟩
    exact ⟨(u, some s, v), he, by simp⟩

/-- Witness for C5: the amended theorem applied to the one-edge graph
`0 -a→ 1` plus the empty-label edge `1 -""→ 1`, with defaults. -/
theorem c5_graph_to_epsilon_nfa_witness :
    ∃ nfa, graphToEpsilonNfa
        (⟨[0, 1], [(0, some "a", 1), (1, some "", 1)]⟩ : LGraph Nat)
        none none = some nfa ∧
      (∀ u l v, (u, l, v) ∈ nfa.transitions ↔
        ∃ s, (u, some s, v) ∈
          (⟨[0, 1], [(0, some "a", 1), (1, some "", 1)]⟩ : LGraph Nat).edges ∧
          l = edgeLabelToSymbol s) ∧
      nfa.starts = (none : Option (List Nat)).getD [0, 1] ∧
      nfa.finals = (none : Option (List Nat)).getD [0, 1] ∧
      edgeLabelToSymbol "" = none ∧
      ∀ s, s ≠ "" → edgeLabelToSymbol s = some s :=
  c5_graph_to_epsilon_nfa
    (⟨[0, 1], [(0, some "a", 1), (1, some "", 1)]⟩ : LGraph Nat)
    none none (by decide)

end S2P
